import Mathlib

/-!
# screenresolution: a shallow embedding of `main.c`

The program is a thin command-line wrapper around the CoreGraphics display
API.  The embedding has three layers.

* The C library pieces the program calls: `sscanf`, `printf`, `strcmp` and
  the arithmetic of `double`.  They follow ISO C 7.21.6 on a 64-bit target in
  the "C" locale, with the behaviour of the BSD library of the target platform
  where the standard leaves a choice: a numeric conversion consumes the longest
  prefix of the input that is a valid subject sequence, an out-of-range `%lu`
  yields `ULONG_MAX`, and numerals are not limited in length.  A string is the
  list of its characters.  A `double` is a sign, a significand and a binary
  exponent; decimal numerals are converted with correct rounding (to nearest,
  ties to even), and `%.0f` and `%f` print the exact value rounded the same way.
* The operating system, as a record `OS` of the answers the CoreGraphics calls
  give.  What the program writes and the display-configuration calls it makes
  are recorded, in order, in a trace of `Event`s.
* The functions of `main.c`, each under its own name, returning their C return
  value together with the trace.

Undefined behaviour of the C program (reading element 0 of an empty display
list, using a `NULL` mode or mode array) is the result `none`.
-/

namespace ScreenResolution

/-! ## Characters -/

/-- The `isspace` class of the "C" locale. -/
def isspace (c : Char) : Bool :=
  c == ' ' || c == '\t' || c == '\n' || c == '\x0b' || c == '\x0c' || c == '\r'

/-- The `isdigit` class. -/
def isdigit (c : Char) : Bool := decide (48 ≤ c.toNat) && decide (c.toNat ≤ 57)

/-- The `isxdigit` class. -/
def isxdigit (c : Char) : Bool :=
  isdigit c || (decide (97 ≤ c.toNat) && decide (c.toNat ≤ 102))
    || (decide (65 ≤ c.toNat) && decide (c.toNat ≤ 70))

/-- The `isalnum` class of the "C" locale. -/
def isalnum (c : Char) : Bool :=
  isdigit c || (decide (97 ≤ c.toNat) && decide (c.toNat ≤ 122))
    || (decide (65 ≤ c.toNat) && decide (c.toNat ≤ 90))

/-- Value of a decimal digit character. -/
def digitVal (c : Char) : Nat := c.toNat - 48

/-- Value of a hexadecimal digit character. -/
def hexVal (c : Char) : Nat :=
  if isdigit c then c.toNat - 48
  else if decide (97 ≤ c.toNat) && decide (c.toNat ≤ 102) then c.toNat - 87
  else c.toNat - 55

/-- Value of a run of decimal digits, most significant first. -/
def decValue (ds : List Char) : Nat := ds.foldl (fun a c => 10 * a + digitVal c) 0

/-- Value of a run of hexadecimal digits, most significant first. -/
def hexValue (ds : List Char) : Nat := ds.foldl (fun a c => 16 * a + hexVal c) 0

/-- Longest initial run of characters in the class `p`, and what follows it. -/
def spanClass (p : Char → Bool) : List Char → List Char × List Char
  | [] => ([], [])
  | c :: cs =>
    if p c then ((c :: (spanClass p cs).1), (spanClass p cs).2) else ([], c :: cs)

/-- Input with leading white space removed, as every `%` conversion does first. -/
def skipSpaces : List Char → List Char
  | [] => []
  | c :: cs => if isspace c then skipSpaces cs else c :: cs

/-- The text `printf` writes for `%lu` and `%u`. -/
def fmtUnsigned (n : Nat) : List Char := Nat.toDigits 10 n

/-! ## IEEE-754 binary64 values -/

/-- A C `double`.  `finite neg m e` is the value `(-1)^neg * m * 2^e`; the
binary64 values are those with `m < 2^53` and `-1074 ≤ e ≤ 971`
(`Double.isBinary64`).  One value has several such forms, so values are
compared with `Double.ceq`, the C operator `==`. -/
inductive Double where
  | finite (neg : Bool) (m : Nat) (e : Int)
  | inf (neg : Bool)
  | nan
  deriving Repr, DecidableEq

namespace Double

/-- The forms that denote a binary64 value. -/
def isBinary64 : Double → Bool
  | finite _ m e => decide (m < 2 ^ 53) && decide (-1074 ≤ e) && decide (e ≤ 971)
  | inf _ => true
  | nan => true

/-- The C comparison `x == y` on doubles: a NaN equals nothing, the two zeros
are equal, otherwise the values are compared exactly. -/
def ceq : Double → Double → Bool
  | finite n1 m1 e1, finite n2 m2 e2 =>
    (m1 == 0 && m2 == 0) ||
      (n1 == n2 && m1 * 2 ^ (e1 - min e1 e2).toNat == m2 * 2 ^ (e2 - min e1 e2).toNat)
  | inf n1, inf n2 => n1 == n2
  | _, _ => false

/-- The exact value of a finite double. -/
def value : Double → Option ℚ
  | finite neg m e => some ((if neg then -1 else 1) * (m : ℚ) * (2 : ℚ) ^ e)
  | inf _ => none
  | nan => none

/-- Finite with an integer value. -/
def isIntegral : Double → Bool
  | finite _ m e => decide (0 ≤ e) || decide (m % 2 ^ (-e).toNat = 0)
  | inf _ => false
  | nan => false

/-- The integer nearest to `n / d`, ties to the even one (the default
rounding direction). -/
def roundHalfEven (n d : Nat) : Nat :=
  if 2 * (n % d) < d then n / d
  else if d < 2 * (n % d) then n / d + 1
  else if (n / d) % 2 = 0 then n / d
  else n / d + 1

/-- Auxiliary of `ilog2`, by recursion on a bound of the argument. -/
def ilog2Aux : Nat → Nat → Nat
  | 0, _ => 0
  | fuel + 1, n => if 2 ≤ n then ilog2Aux fuel (n / 2) + 1 else 0

/-- The integer binary logarithm: `2^(ilog2 n) ≤ n < 2^(ilog2 n + 1)` for `n > 0`. -/
def ilog2 (n : Nat) : Nat := ilog2Aux n n

/-- Whether `d * 2^l ≤ n`. -/
def pow2Le (l : Int) (n d : Nat) : Bool :=
  if 0 ≤ l then decide (d * 2 ^ l.toNat ≤ n) else decide (d ≤ n * 2 ^ (-l).toNat)

/-- For `n, d > 0`: the exponent `b` with `2^b ≤ n / d < 2^(b+1)`. -/
def binade (n d : Nat) : Int :=
  if pow2Le ((ilog2 n : Int) - (ilog2 d : Int)) n d
  then (ilog2 n : Int) - (ilog2 d : Int)
  else (ilog2 n : Int) - (ilog2 d : Int) - 1

/-- The binary64 nearest to `± n / d` (`d > 0`), ties to even: what `strtod`
returns for a numeral of that value.  The significand has 53 bits, the least
exponent is `-1074` (subnormals), and a result of `2^1024` or more is an
infinity. -/
def ofQuotient (neg : Bool) (n d : Nat) : Double :=
  if n = 0 then finite neg 0 0
  else
    let q : Int := max (binade n d - 52) (-1074)
    let m : Nat :=
      if 0 ≤ q then roundHalfEven n (d * 2 ^ q.toNat) else roundHalfEven (n * 2 ^ (-q).toNat) d
    if 971 < q || (q == 971 && decide (2 ^ 53 ≤ m)) then inf neg else finite neg m q

/-- The double for `± c * base^x`, with `base` 10 (decimal numerals) or 2
(hexadecimal numerals). -/
def ofScaled (neg : Bool) (c base : Nat) (x : Int) : Double :=
  if 0 ≤ x then ofQuotient neg (c * base ^ x.toNat) 1 else ofQuotient neg c (base ^ (-x).toNat)

/-- The C literal `60.0`. -/
def sixty : Double := finite false 60 0

/-- The text `printf` writes for `%.<prec>f`: the value rounded to `prec`
decimals, ties to even. -/
def fmtFixed (prec : Nat) : Double → List Char
  | finite neg m e =>
    let r : Nat :=
      if 0 ≤ e then m * 10 ^ prec * 2 ^ e.toNat else roundHalfEven (m * 10 ^ prec) (2 ^ (-e).toNat)
    let frac : List Char := Nat.toDigits 10 (r % 10 ^ prec)
    (if neg then ['-'] else []) ++ Nat.toDigits 10 (r / 10 ^ prec) ++
      (if prec = 0 then [] else '.' :: (List.replicate (prec - frac.length) '0' ++ frac))
  | inf neg => (if neg then ['-'] else []) ++ ['i', 'n', 'f']
  | nan => ['n', 'a', 'n']

end Double

/-! ## `sscanf` -/

/-- Largest value of `unsigned long` and of `size_t` (64-bit target). -/
def ULONG_MAX : Nat := 2 ^ 64 - 1

/-- The result `strtoul` gives for a sign and the value of the digits: the
largest value when the digits are out of range, otherwise the value, negated in
the unsigned type after a minus sign. -/
def strtoul (neg : Bool) (v : Nat) : Nat :=
  if ULONG_MAX < v then ULONG_MAX else if neg then (2 ^ 64 - v) % 2 ^ 64 else v

/-- Outcome of one conversion: the value and the unread input, or a matching
failure, or an input failure (end of input before any character was read). -/
inductive Conv (α : Type) where
  | ok (v : α) (rest : List Char)
  | matchFailure
  | inputFailure
  deriving Repr, DecidableEq

/-- An optional sign at the head of the input: whether it is a minus, and the
input after it. -/
def takeSign : List Char → Bool × List Char
  | [] => (false, [])
  | c :: cs => if c = '-' then (true, cs) else if c = '+' then (false, cs) else (false, c :: cs)

/-- The conversion `%lu`: white space, an optional sign, decimal digits. -/
def scanUnsigned (s : List Char) : Conv Nat :=
  match skipSpaces s with
  | [] => Conv.inputFailure
  | c :: cs =>
    if (spanClass isdigit (takeSign (c :: cs)).2).1 = [] then Conv.matchFailure
    else Conv.ok (strtoul (takeSign (c :: cs)).1
        (decValue (spanClass isdigit (takeSign (c :: cs)).2).1))
      (spanClass isdigit (takeSign (c :: cs)).2).2

/-- ASCII lower case: for the case-insensitive words `inf`, `infinity`, `nan`
and exponent markers of `strtod`, and for case-insensitive string comparison. -/
def lower (c : Char) : Char :=
  if decide (65 ≤ c.toNat) && decide (c.toNat ≤ 90) then Char.ofNat (c.toNat + 32) else c

/-- If the input starts with the lower-case word `w`, in any case, the input
after it. -/
def stripWord : List Char → List Char → Option (List Char)
  | [], s => some s
  | _ :: _, [] => none
  | w :: ws, c :: cs => if lower c = w then stripWord ws cs else none

/-- An exponent part `e±digits` (marker `mk`, lower case) at the head of the
input, if a complete one is there: its value and the input after it.  An
incomplete one is not consumed. -/
def scanExponent (mk : Char) (s : List Char) : Int × List Char :=
  match s with
  | [] => (0, [])
  | c :: t =>
    if lower c = mk then
      if (spanClass isdigit (takeSign t).2).1 = [] then (0, s)
      else
        ((if (takeSign t).1 then -(decValue (spanClass isdigit (takeSign t).2).1 : Int)
          else (decValue (spanClass isdigit (takeSign t).2).1 : Int)),
         (spanClass isdigit (takeSign t).2).2)
    else (0, s)

/-- The digits after a decimal point at the head of the input (none when
there is no point), and the input after them. -/
def scanFraction (p : Char → Bool) : List Char → List Char × List Char
  | [] => ([], [])
  | c :: t => if c = '.' then spanClass p t else ([], c :: t)

/-- A decimal floating-point numeral after the sign: digits with an optional
point, then an optional exponent. -/
def scanDecimal (neg : Bool) (s : List Char) : Option (Double × List Char) :=
  let ip := spanClass isdigit s
  let fp := scanFraction isdigit ip.2
  if ip.1 = [] ∧ fp.1 = [] then none
  else
    let ex := scanExponent 'e' fp.2
    some (Double.ofScaled neg (decValue (ip.1 ++ fp.1)) 10 (ex.1 - (fp.1.length : Int)), ex.2)

/-- A hexadecimal floating-point numeral after the sign and after `0x`:
hexadecimal digits with an optional point, then an optional binary exponent. -/
def scanHex (neg : Bool) (s : List Char) : Option (Double × List Char) :=
  let ip := spanClass isxdigit s
  let fp := scanFraction isxdigit ip.2
  if ip.1 = [] ∧ fp.1 = [] then none
  else
    let ex := scanExponent 'p' fp.2
    some (Double.ofScaled neg (hexValue (ip.1 ++ fp.1)) 2 (ex.1 - 4 * (fp.1.length : Int)), ex.2)

/-- The input after an optional NaN payload `(chars)`. -/
def scanNanPayload : List Char → List Char
  | [] => []
  | c :: t =>
    if c = '(' then
      match (spanClass (fun a => isalnum a || a == '_') t).2 with
      | [] => c :: t
      | b :: u => if b = ')' then u else c :: t
    else c :: t

/-- The subject sequence of `strtod` after the sign: `infinity`, `inf`, `nan`
with an optional payload, a hexadecimal numeral, or a decimal numeral. -/
def scanFloatBody (neg : Bool) (s : List Char) : Option (Double × List Char) :=
  match stripWord ['i', 'n', 'f', 'i', 'n', 'i', 't', 'y'] s with
  | some r => some (Double.inf neg, r)
  | none =>
    match stripWord ['i', 'n', 'f'] s with
    | some r => some (Double.inf neg, r)
    | none =>
      match stripWord ['n', 'a', 'n'] s with
      | some r => some (Double.nan, scanNanPayload r)
      | none =>
        match stripWord ['0', 'x'] s with
        | some r =>
          match scanHex neg r with
          | some res => some res
          | none => scanDecimal neg s
        | none => scanDecimal neg s

/-- The conversion `%lf`: white space, an optional sign, then the longest
prefix that `strtod` accepts. -/
def scanDouble (s : List Char) : Conv Double :=
  match skipSpaces s with
  | [] => Conv.inputFailure
  | c :: cs =>
    match scanFloatBody (takeSign (c :: cs)).1 (takeSign (c :: cs)).2 with
    | some res => Conv.ok res.1 res.2
    | none => Conv.matchFailure

/-- The directives occurring in the format strings of `main.c`. -/
inductive Directive where
  | lu
  | lf
  | lit (c : Char)
  deriving Repr, DecidableEq

/-- A value assigned by a conversion. -/
inductive Item where
  | ulong (n : Nat)
  | dbl (x : Double)
  deriving Repr, DecidableEq

/-- Runs the directives over the input: the values assigned, in order, and
whether the scan stopped on an input failure. -/
def scanDirectives : List Directive → List Char → List Item × Bool
  | [], _ => ([], false)
  | Directive.lit c :: fmt, s =>
    match s with
    | [] => ([], true)
    | a :: t => if a = c then scanDirectives fmt t else ([], false)
  | Directive.lu :: fmt, s =>
    match scanUnsigned s with
    | Conv.ok v rest => (Item.ulong v :: (scanDirectives fmt rest).1, (scanDirectives fmt rest).2)
    | Conv.matchFailure => ([], false)
    | Conv.inputFailure => ([], true)
  | Directive.lf :: fmt, s =>
    match scanDouble s with
    | Conv.ok v rest => (Item.dbl v :: (scanDirectives fmt rest).1, (scanDirectives fmt rest).2)
    | Conv.matchFailure => ([], false)
    | Conv.inputFailure => ([], true)

/-- The call `sscanf(string, format, ...)`: the return value (the number of
assignments, or `EOF = -1` on an input failure before the first conversion)
and the values assigned to the arguments, in order. -/
def sscanf (string : List Char) (format : List Directive) : Int × List Item :=
  ((if (scanDirectives format string).2 ∧ (scanDirectives format string).1 = [] then -1
    else ((scanDirectives format string).1.length : Int)),
   (scanDirectives format string).1)

/-- The format `"%lux%lux%lu@%lf"`. -/
def fmtWHDR : List Directive :=
  [Directive.lu, Directive.lit 'x', Directive.lu, Directive.lit 'x', Directive.lu,
   Directive.lit '@', Directive.lf]

/-- The format `"%lux%lux%lu"`. -/
def fmtWHD : List Directive :=
  [Directive.lu, Directive.lit 'x', Directive.lu, Directive.lit 'x', Directive.lu]

/-- The format `"%lux%lu"`. -/
def fmtWH : List Directive := [Directive.lu, Directive.lit 'x', Directive.lu]

/-- The `unsigned long` stored by the `i`-th assignment. -/
def ulongAt (items : List Item) (i : Nat) : Nat :=
  match items.get? i with
  | some (Item.ulong n) => n
  | _ => 0

/-- The `double` stored by the `i`-th assignment. -/
def doubleAt (items : List Item) (i : Nat) : Double :=
  match items.get? i with
  | some (Item.dbl x) => x
  | _ => Double.nan

/-! ## The operating system -/

/-- What the headers included by `main.c` define: `VERSION` of `version.h`
and the pixel-encoding strings of IOKit (`IOGraphicsTypes.h`). -/
structure Headers where
  VERSION : List Char
  kIO32BitFloatPixels : List Char
  kIO64BitDirectPixels : List Char
  kIO16BitFloatPixels : List Char
  IO32BitDirectPixels : List Char
  kIO30BitDirectPixels : List Char
  IO16BitDirectPixels : List Char
  IO8BitIndexedPixels : List Char

/-- The pixel-encoding strings as `IOGraphicsTypes.h` defines them. -/
def ioGraphicsTypes (version : List Char) : Headers where
  VERSION := version
  kIO32BitFloatPixels := ("-32FR32FG32FB32").toList
  kIO64BitDirectPixels := ("-16R16G16B16").toList
  kIO16BitFloatPixels := ("-16FR16FG16FB16").toList
  IO32BitDirectPixels := ("--------RRRRRRRRGGGGGGGGBBBBBBBB").toList
  kIO30BitDirectPixels := ("--RRRRRRRRRRGGGGGGGGGGBBBBBBBBBB").toList
  IO16BitDirectPixels := ("-RRRRRGGGGGBBBBB").toList
  IO8BitIndexedPixels := ("PPPPPPPP").toList

/-- A `CGDisplayModeRef` as the program sees it: the answers of
`CGDisplayModeGetWidth`, `CGDisplayModeGetHeight`,
`CGDisplayModeCopyPixelEncoding` and `CGDisplayModeGetRefreshRate`. -/
structure DisplayMode where
  width : Nat
  height : Nat
  pixelEncoding : List Char
  refreshRate : Double
  deriving Repr, DecidableEq

/-- `struct config`. -/
structure config where
  w : Nat
  h : Nat
  d : Nat
  r : Double
  deriving Repr, DecidableEq

/-- The answers of the CoreGraphics calls.  A `CGError` is a number, `0` being
`kCGErrorSuccess`; a display is its `CGDirectDisplayID`; a mode of a display is
referred to by its index in the array `CGDisplayCopyAllDisplayModes` returns. -/
structure OS where
  /-- Result of `CGGetActiveDisplayList(0, NULL, &activeDisplayCount)`. -/
  countError : Nat
  /-- Whether `malloc` returns `NULL` for the display list. -/
  mallocNull : Bool
  /-- Result of `CGGetActiveDisplayList(activeDisplayCount, activeDisplays, &displayCount)`. -/
  listError : Nat
  /-- The display list that call fills in. -/
  activeDisplays : List Nat
  /-- `CGDisplayCopyDisplayMode`, `none` being `NULL`. -/
  currentMode : Nat → Option DisplayMode
  /-- `CGDisplayCopyAllDisplayModes`, `none` being `NULL`. -/
  allModes : Nat → Option (List DisplayMode)
  /-- Result of `CGBeginDisplayConfiguration`. -/
  beginError : Nat
  /-- Result of `CGConfigureDisplayWithDisplayMode` for a display and a mode. -/
  configureError : Nat → Nat → Nat
  /-- Result of `CGCompleteDisplayConfiguration`. -/
  completeError : Nat

/-- What the program does that can be observed: text written to the two
streams and the display-configuration calls. -/
inductive Event where
  | stdout (text : List Char)
  | stderr (text : List Char)
  | beginDisplayConfiguration
  | configureDisplayWithDisplayMode (display : Nat) (mode : Nat)
  | completeDisplayConfiguration
  deriving Repr, DecidableEq

/-- Whether an event is one of the display-configuration calls. -/
def Event.isConfigurationCall : Event → Bool
  | Event.stdout _ => false
  | Event.stderr _ => false
  | Event.beginDisplayConfiguration => true
  | Event.configureDisplayWithDisplayMode _ _ => true
  | Event.completeDisplayConfiguration => true

/-! ## The functions of `main.c` -/

/-- `CFStringCompare(a, b, kCFCompareCaseInsensitive) == kCFCompareEqualTo`.
The strings compared against contain ASCII only. -/
def cfEqualCaseInsensitive (a b : List Char) : Bool := a.map lower == b.map lower

/-- The seven pixel-encoding strings, in the order `bitDepth` tests them. -/
def Headers.encodings (hdr : Headers) : List (List Char) :=
  [hdr.kIO32BitFloatPixels, hdr.kIO64BitDirectPixels, hdr.kIO16BitFloatPixels,
   hdr.IO32BitDirectPixels, hdr.kIO30BitDirectPixels, hdr.IO16BitDirectPixels,
   hdr.IO8BitIndexedPixels]

/-- `bitDepth`. -/
def bitDepth (hdr : Headers) (mode : DisplayMode) : Nat :=
  if cfEqualCaseInsensitive mode.pixelEncoding hdr.kIO32BitFloatPixels then 96
  else if cfEqualCaseInsensitive mode.pixelEncoding hdr.kIO64BitDirectPixels then 64
  else if cfEqualCaseInsensitive mode.pixelEncoding hdr.kIO16BitFloatPixels then 48
  else if cfEqualCaseInsensitive mode.pixelEncoding hdr.IO32BitDirectPixels then 32
  else if cfEqualCaseInsensitive mode.pixelEncoding hdr.kIO30BitDirectPixels then 30
  else if cfEqualCaseInsensitive mode.pixelEncoding hdr.IO16BitDirectPixels then 16
  else if cfEqualCaseInsensitive mode.pixelEncoding hdr.IO8BitIndexedPixels then 8
  else 0

/-- `setDisplayToMode`: the return value and the trace. -/
def setDisplayToMode (os : OS) (display : Nat) (mode : Nat) : Nat × List Event :=
  if os.beginError ≠ 0 then
    (0, [Event.beginDisplayConfiguration,
      Event.stderr (("Error: failed CGBeginDisplayConfiguration err(").toList ++
        fmtUnsigned os.beginError ++ (")\n").toList)])
  else if os.configureError display mode ≠ 0 then
    (0, [Event.beginDisplayConfiguration, Event.configureDisplayWithDisplayMode display mode,
      Event.stderr (("Error: failed CGConfigureDisplayWithDisplayMode err(").toList ++
        fmtUnsigned (os.configureError display mode) ++ (")\n").toList)])
  else if os.completeError ≠ 0 then
    (0, [Event.beginDisplayConfiguration, Event.configureDisplayWithDisplayMode display mode,
      Event.completeDisplayConfiguration,
      Event.stderr (("Error: failed CGCompleteDisplayConfiguration err(").toList ++
        fmtUnsigned os.completeError ++ (")\n").toList)])
  else
    (1, [Event.beginDisplayConfiguration, Event.configureDisplayWithDisplayMode display mode,
      Event.completeDisplayConfiguration])

/-- The text of `"%lux%lux%lu@%.0f"` for the four values. -/
def fmtMode (w h d : Nat) (r : Double) : List Char :=
  fmtUnsigned w ++ 'x' :: fmtUnsigned h ++ 'x' :: fmtUnsigned d ++ '@' :: Double.fmtFixed 0 r

/-- The locals of the search loop of `configureDisplay`. -/
structure Search where
  newMode : Option Nat
  pw : Nat
  ph : Nat
  pd : Nat
  pr : Double
  looking : Bool
  deriving Repr, DecidableEq

/-- The comparison in the body of the search loop. -/
def modeMatches (hdr : Headers) (cfg : config) (possibleMode : DisplayMode) : Bool :=
  decide (possibleMode.width = cfg.w) && decide (possibleMode.height = cfg.h) &&
    decide (bitDepth hdr possibleMode = cfg.d) && Double.ceq possibleMode.refreshRate cfg.r

/-- The search loop of `configureDisplay`, from index `i` on, over the modes
not yet examined. -/
def searchLoop (hdr : Headers) (cfg : config) : List DisplayMode → Nat → Search → Search
  | [], _, st => st
  | possibleMode :: rest, i, st =>
    if st.looking then
      searchLoop hdr cfg rest (i + 1)
        (if modeMatches hdr cfg possibleMode then
          { newMode := some i, pw := possibleMode.width, ph := possibleMode.height,
            pd := bitDepth hdr possibleMode, pr := possibleMode.refreshRate, looking := false }
        else
          { newMode := st.newMode, pw := possibleMode.width, ph := possibleMode.height,
            pd := bitDepth hdr possibleMode, pr := possibleMode.refreshRate,
            looking := st.looking })
    else st

/-- The locals of `configureDisplay` when the loop starts (`pw`, `ph`, `pd`
and `pr` are not initialised by the program and not read before they are
assigned). -/
def searchStart : Search :=
  { newMode := none, pw := 0, ph := 0, pd := 0, pr := Double.nan, looking := true }

/-- `configureDisplay`: the return value and the trace.  With a `NULL` mode
array the program goes on to `CFArrayGetCount(NULL)`. -/
def configureDisplay (hdr : Headers) (os : OS) (display : Nat) (cfg : config)
    (displayNum : Nat) : Option (Nat × List Event) :=
  match os.allModes display with
  | none => none
  | some allModes =>
    match (searchLoop hdr cfg allModes 0 searchStart).newMode with
    | some newMode =>
      some (1,
        Event.stdout (("Set mode on display ").toList ++ fmtUnsigned displayNum ++
          (" to ").toList ++
          fmtMode (searchLoop hdr cfg allModes 0 searchStart).pw
            (searchLoop hdr cfg allModes 0 searchStart).ph
            (searchLoop hdr cfg allModes 0 searchStart).pd
            (searchLoop hdr cfg allModes 0 searchStart).pr ++ ['\n'])
          :: (setDisplayToMode os display newMode).2)
    | none =>
      some (0,
        [Event.stderr (("Error: mode ").toList ++ fmtUnsigned cfg.w ++ 'x' :: fmtUnsigned cfg.h ++
          'x' :: fmtUnsigned cfg.d ++ '@' :: Double.fmtFixed 6 cfg.r ++
          (" not available on display ").toList ++ fmtUnsigned displayNum ++ (".\n").toList)])

/-- `listCurrentMode`: the return value and the trace.  With a `NULL` current
mode the program goes on to use it. -/
def listCurrentMode (hdr : Headers) (os : OS) (display : Nat) (_displayNum : Nat) :
    Option (Nat × List Event) :=
  match os.currentMode display with
  | none => none
  | some currentMode =>
    some (1, [Event.stdout (fmtMode currentMode.width currentMode.height
      (bitDepth hdr currentMode) currentMode.refreshRate ++ ['\n'])])

/-- `listAvailableModes` (without `LIST_DEBUG`): the return value and the
trace.  With a `NULL` mode array the program goes on to `CFArrayGetCount(NULL)`. -/
def listAvailableModes (hdr : Headers) (os : OS) (display : Nat) (_displayNum : Nat) :
    Option (Nat × List Event) :=
  match os.allModes display with
  | none => none
  | some allModes =>
    some (1, allModes.map (fun mode => Event.stdout (fmtMode mode.width mode.height
      (bitDepth hdr mode) mode.refreshRate ++ ['\n'])))

/-- `parseStringConfig`: the return value, the contents of `*out` afterwards,
and the trace. -/
def parseStringConfig (string : List Char) (out : config) : Nat × config × List Event :=
  if (sscanf string fmtWHDR).1 ≠ 4 then
    if (sscanf string fmtWHD).1 ≠ 3 then
      if (sscanf string fmtWH).1 ≠ 2 then
        (0, out, [Event.stderr (("Error: the mode \x27").toList ++ string ++
          ("\x27 couldn\x27t be parsed.\n").toList)])
      else
        (1, { w := ulongAt (sscanf string fmtWH).2 0, h := ulongAt (sscanf string fmtWH).2 1,
              d := 32, r := Double.sixty },
          [Event.stdout ("Warning: no pixel-depth and no refresh rate specified, assuming 32 bit and 60.0Hz.\n").toList])
    else
      (1, { w := ulongAt (sscanf string fmtWHD).2 0, h := ulongAt (sscanf string fmtWHD).2 1,
            d := ulongAt (sscanf string fmtWHD).2 2, r := Double.sixty },
        [Event.stdout ("Warning: no refresh rate specified, assuming 60.0Hz.\n").toList])
  else
    (1, { w := ulongAt (sscanf string fmtWHDR).2 0, h := ulongAt (sscanf string fmtWHDR).2 1,
          d := ulongAt (sscanf string fmtWHDR).2 2, r := doubleAt (sscanf string fmtWHDR).2 3 }, [])

/-- The exit status `exitcode > 0` and the trace, for a call that returned
`rc` with trace `ev` and is counted as failed when `rc` is zero. -/
def countFailure (res : Option (Nat × List Event)) : Option (Nat × List Event) :=
  match res with
  | none => none
  | some (rc, ev) => some ((if rc = 0 then 1 else 0), ev)

/-- `main`: the exit status and the trace; `argv` holds the program name and
the arguments, `argc` being its length.  The result is `none` where the
program reads `activeDisplays[0]` of an empty display list or a callee uses a
`NULL` reference. -/
def main (hdr : Headers) (os : OS) (argv : List (List Char)) : Option (Nat × List Event) :=
  if 1 < argv.length then
    if os.countError ≠ 0 then
      some (1, [Event.stderr ("Error: failed to get list of active displays.\n").toList])
    else if os.mallocNull then
      some (1, [Event.stderr ("Error: could not allocate memory for display list.\n").toList])
    else if os.listError ≠ 0 then
      some (1, [Event.stderr ("Error: failed to get list of active displays.\n").toList])
    else if argv.get? 1 = some ("get").toList then
      match os.activeDisplays.head? with
      | none => none
      | some display => countFailure (listCurrentMode hdr os display 0)
    else if argv.get? 1 = some ("list").toList then
      match os.activeDisplays.head? with
      | none => none
      | some display => countFailure (listAvailableModes hdr os display 0)
    else if argv.get? 1 = some ("set").toList then
      if argv.length = 3 then
        if (parseStringConfig (argv.getD 2 []) (config.mk 0 0 0 Double.nan)).1 ≠ 0 then
          match os.activeDisplays.head? with
          | none => none
          | some display =>
            match configureDisplay hdr os display
                (parseStringConfig (argv.getD 2 []) (config.mk 0 0 0 Double.nan)).2.1 0 with
            | none => none
            | some (rc, ev) =>
              some ((if rc = 0 then 1 else 0),
                (parseStringConfig (argv.getD 2 []) (config.mk 0 0 0 Double.nan)).2.2 ++ ev)
        else
          some (1, (parseStringConfig (argv.getD 2 []) (config.mk 0 0 0 Double.nan)).2.2)
      else
        some (1, [Event.stderr (("wrong format for screen-resolution to set: \x27").toList ++
          (match argv.get? 2 with
            | some a => a
            | none => ("(null)").toList) ++ ("\x27\n").toList)])
    else if argv.get? 1 = some ("-version").toList then
      some (0, [Event.stdout (("screenresolution version ").toList ++ hdr.VERSION ++
        ("\nLicensed under GPLv2\n").toList)])
    else
      some (1, [Event.stderr
        ("The first command-line-argument must be \x27get\x27, \x27list\x27 or \x27set\x27.\n").toList])
  else
    some (1, [Event.stderr
      ("Incorrect command line: Use \x27get\x27, \x27list\x27, or \x27set\x27 as command-line-argument.\n").toList])

/-! ## Predicates and data used in the statements -/

/-- The head of the list, if any, is not in the class `p`. -/
def stopsAt (p : Char → Bool) : List Char → Prop
  | [] => True
  | c :: _ => p c = false

/-- A field as `%lu` accepts it: white space, an optional sign, digits. -/
def isUnsignedField (t : List Char) : Prop :=
  ∃ ws sg ds, t = ws ++ sg ++ ds ∧ (∀ c ∈ ws, isspace c = true) ∧
    (sg = [] ∨ sg = ['+'] ∨ sg = ['-']) ∧ ds ≠ [] ∧ ∀ c ∈ ds, isdigit c = true

/-- The string starts as the grammar `WIDTHxHEIGHT` requires: two `%lu`
fields with an `x` between them.  The grammars `WIDTHxHEIGHTxDEPTH` and
`WIDTHxHEIGHTxDEPTH@RATE` extend this one, so a string matching any of the
three starts this way. -/
def startsWithWxH (s : List Char) : Prop :=
  ∃ f1 f2 rest, isUnsignedField f1 ∧ isUnsignedField f2 ∧ s = f1 ++ 'x' :: (f2 ++ rest)

/-- A rate field: a text that `%lf` reads to its end. -/
def isRateField (t : List Char) : Prop := ∃ v, scanDouble t = Conv.ok v []

/-- The whole string has the form `WIDTHxHEIGHT`. -/
def matchesWxH (s : List Char) : Prop :=
  ∃ f1 f2, isUnsignedField f1 ∧ isUnsignedField f2 ∧ s = f1 ++ 'x' :: f2

/-- The whole string has the form `WIDTHxHEIGHTxDEPTH`. -/
def matchesWxHxD (s : List Char) : Prop :=
  ∃ f1 f2 f3, isUnsignedField f1 ∧ isUnsignedField f2 ∧ isUnsignedField f3 ∧
    s = f1 ++ 'x' :: (f2 ++ 'x' :: f3)

/-- The whole string has the form `WIDTHxHEIGHTxDEPTH@RATE`. -/
def matchesWxHxDatR (s : List Char) : Prop :=
  ∃ f1 f2 f3 t, isUnsignedField f1 ∧ isUnsignedField f2 ∧ isUnsignedField f3 ∧ isRateField t ∧
    s = f1 ++ 'x' :: (f2 ++ 'x' :: (f3 ++ '@' :: t))

/-- The string matches none of the three grammars. -/
def matchesNoGrammar (s : List Char) : Prop :=
  ¬ matchesWxHxDatR s ∧ ¬ matchesWxHxD s ∧ ¬ matchesWxH s

/-- The first character of the suffix, if any, is not one that continues a
decimal text: not a digit, not a decimal point, not an exponent marker. -/
def cannotContinueDecimal : List Char → Bool
  | [] => true
  | c :: _ => !isdigit c && c != '.' && lower c != 'e'

/-- The decimal numeral with integer digits `ip` and, when `fp` is given, a
point followed by the fraction digits `fp`. -/
def decimalText (ip : List Char) (fp : Option (List Char)) : List Char :=
  match fp with
  | none => ip
  | some f => ip ++ '.' :: f

/-- The number a decimal numeral denotes. -/
def decimalValue (ip : List Char) (fp : Option (List Char)) : ℚ :=
  (decValue (ip ++ fp.getD []) : ℚ) / (10 : ℚ) ^ (fp.getD []).length

/-- The double `strtod` returns for a decimal numeral: the binary64 nearest
to its value. -/
def decimalDouble (ip : List Char) (fp : Option (List Char)) : Double :=
  Double.ofScaled false (decValue (ip ++ fp.getD [])) 10 (0 - ((fp.getD []).length : Int))

/-- The input `s` after the decimal numeral `ip[.fp]` cannot continue the
numeral: `s` is empty, or its first character is not a digit, not an exponent
marker, not a point when the numeral has none yet, and not the `x` of a
hexadecimal numeral when the numeral is `0`. -/
def numeralEnds (ip : List Char) (fp : Option (List Char)) : List Char → Prop
  | [] => True
  | c :: _ =>
    isdigit c = false ∧ lower c ≠ 'e' ∧ (fp = none → c ≠ '.' ∧ (ip = ['0'] → lower c ≠ 'x'))

/-- The mode string `WxHxD@R`: the decimal digits of `w`, `h` and `d` and the
decimal numeral `ip[.fp]` of the rate. -/
def fourFieldText (w h d : Nat) (ip : List Char) (fp : Option (List Char)) : List Char :=
  fmtUnsigned w ++ 'x' :: (fmtUnsigned h ++ 'x' :: (fmtUnsigned d ++ '@' :: decimalText ip fp))

/-- The rational `v` is the value of a finite binary64. -/
def isBinary64Value (v : ℚ) : Prop :=
  ∃ y : Double, y.isBinary64 = true ∧ y.value = some v

/-- Written with a 53-bit significand, or at the least exponent, the binary64
value `v` has an even significand. -/
def hasEvenSignificand (v : ℚ) : Prop :=
  ∃ (m : Nat) (e : Int), m % 2 = 0 ∧
    ((2 ^ 52 ≤ m ∧ m < 2 ^ 53 ∧ -1074 ≤ e ∧ e ≤ 971) ∨ (m < 2 ^ 52 ∧ e = -1074)) ∧
    v = (m : ℚ) * (2 : ℚ) ^ e

/-- The largest finite binary64 plus half a unit in its last place: a value
from here on is rounded to infinity. -/
def overflowThreshold : ℚ := 2 ^ 1024 - 2 ^ 970

/-- The double `x` is the non-negative number `r` rounded to binary64 as
IEEE 754 prescribes (to nearest, ties to even): infinity from the overflow
threshold on; otherwise a binary64 value `v` such that no binary64 value is
nearer to `r`, and such that `v` has an even significand if another binary64
value is equally near. -/
def roundsTo (r : ℚ) (x : Double) : Prop :=
  (overflowThreshold ≤ r → x = Double.inf false) ∧
  (r < overflowThreshold → ∃ v, x.value = some v ∧ isBinary64Value v ∧
    (∀ u, isBinary64Value u → |v - r| ≤ |u - r|) ∧
    (∀ u, isBinary64Value u → u ≠ v → |u - r| = |v - r| → hasEvenSignificand v))

/-- The test OS used in the examples: one display (id 7) whose mode list is
`modes`, all queries succeeding, and the three configuration calls answering
`b`, `c` and `f`. -/
def exampleOS (modes : List DisplayMode) (b c f : Nat) : OS :=
  OS.mk 0 false 0 [7] (fun _ => modes.head?) (fun _ => some modes) b (fun _ _ => c) f

/-- The mode 1920x1080, 32-bit direct pixels, at the given rate. -/
def exampleMode (r : Double) : DisplayMode :=
  DisplayMode.mk 1920 1080 ("--------RRRRRRRRGGGGGGGGBBBBBBBB").toList r

/-- The binary64 nearest to 59.94, a refresh rate displays report. -/
def rate5994 : Double := Double.finite false 8435805052018360 (-47)

/-! ## Lemmas: the search loop -/

theorem searchLoop_stopped (hdr : Headers) (cfg : config) (l : List DisplayMode) (i : Nat)
    (st : Search) (h : st.looking = false) : searchLoop hdr cfg l i st = st := by
  cases l with
  | nil => rfl
  | cons m rest => simp [searchLoop, h]

theorem searchLoop_no_match (hdr : Headers) (cfg : config) (l : List DisplayMode) :
    ∀ (i : Nat) (st : Search), (∀ m ∈ l, modeMatches hdr cfg m = false) →
      (searchLoop hdr cfg l i st).newMode = st.newMode := by
  induction l with
  | nil => intro i st _; rfl
  | cons m rest ih =>
    intro i st hno
    have hm : modeMatches hdr cfg m = false := hno m (List.mem_cons_self _ _)
    have hrest : ∀ x ∈ rest, modeMatches hdr cfg x = false :=
      fun x hx => hno x (List.mem_cons_of_mem _ hx)
    by_cases hl : st.looking = true
    · simp only [searchLoop, hl, if_true, hm]
      rw [ih _ _ hrest]
      simp
    · simp [searchLoop, hl]

theorem searchLoop_first (hdr : Headers) (cfg : config) (pre : List DisplayMode) :
    ∀ (m : DisplayMode) (post : List DisplayMode) (i : Nat) (st : Search),
      st.looking = true → (∀ x ∈ pre, modeMatches hdr cfg x = false) →
      modeMatches hdr cfg m = true →
      searchLoop hdr cfg (pre ++ m :: post) i st =
        { newMode := some (i + pre.length), pw := m.width, ph := m.height,
          pd := bitDepth hdr m, pr := m.refreshRate, looking := false } := by
  induction pre with
  | nil =>
    intro m post i st hl _ hm
    simp only [List.nil_append, searchLoop, hl, if_true, hm, List.length_nil, Nat.add_zero]
    exact searchLoop_stopped _ _ _ _ _ rfl
  | cons x pre ih =>
    intro m post i st hl hno hm
    have hx : modeMatches hdr cfg x = false := hno x (List.mem_cons_self _ _)
    have hpre : ∀ y ∈ pre, modeMatches hdr cfg y = false :=
      fun y hy => hno y (List.mem_cons_of_mem _ hy)
    have hstep : searchLoop hdr cfg (x :: pre ++ m :: post) i st =
        searchLoop hdr cfg (pre ++ m :: post) (i + 1)
          { newMode := st.newMode, pw := x.width, ph := x.height, pd := bitDepth hdr x,
            pr := x.refreshRate, looking := st.looking } := by
      simp [searchLoop, hl, hx]
    rw [hstep, ih m post (i + 1)
      { newMode := st.newMode, pw := x.width, ph := x.height, pd := bitDepth hdr x,
        pr := x.refreshRate, looking := st.looking } hl hpre hm]
    simp only [List.length_cons]
    congr 2
    omega

/-- A list with an element satisfying `p` splits at the first such element. -/
theorem exists_first_split {α : Type} (p : α → Bool) (l : List α) (h : ∃ x ∈ l, p x = true) :
    ∃ pre m post, l = pre ++ m :: post ∧ (∀ x ∈ pre, p x = false) ∧ p m = true := by
  induction l with
  | nil => obtain ⟨x, hx, _⟩ := h; cases hx
  | cons a rest ih =>
    by_cases ha : p a = true
    · exact ⟨[], a, rest, rfl, by simp, ha⟩
    · have hrest : ∃ x ∈ rest, p x = true := by
        obtain ⟨x, hx, hpx⟩ := h
        rcases List.mem_cons.mp hx with rfl | hx
        · exact absurd hpx ha
        · exact ⟨x, hx, hpx⟩
      obtain ⟨pre, m, post, hsplit, hpre, hm⟩ := ih hrest
      refine ⟨a :: pre, m, post, by simp [hsplit], ?_, hm⟩
      intro x hx
      rcases List.mem_cons.mp hx with rfl | hx
      · simpa using ha
      · exact hpre x hx

theorem modeMatches_iff (hdr : Headers) (cfg : config) (m : DisplayMode) :
    modeMatches hdr cfg m = true ↔
      (m.width = cfg.w ∧ m.height = cfg.h ∧ bitDepth hdr m = cfg.d ∧
        Double.ceq m.refreshRate cfg.r = true) := by
  simp [modeMatches, and_assoc]

/-! ## The mode matcher (`configureDisplay`) -/

theorem configureDisplay_found (hdr : Headers) (os : OS) (display displayNum : Nat)
    (cfg : config) (pre post : List DisplayMode) (m : DisplayMode)
    (hmodes : os.allModes display = some (pre ++ m :: post))
    (hpre : ∀ x ∈ pre, modeMatches hdr cfg x = false) (hm : modeMatches hdr cfg m = true) :
    configureDisplay hdr os display cfg displayNum =
      some (1,
        Event.stdout (("Set mode on display ").toList ++ fmtUnsigned displayNum ++
          (" to ").toList ++ fmtMode m.width m.height (bitDepth hdr m) m.refreshRate ++ ['\n'])
          :: (setDisplayToMode os display pre.length).2) := by
  have h := searchLoop_first hdr cfg pre m post 0 searchStart rfl hpre hm
  simp only [configureDisplay, hmodes, h, Nat.zero_add]

theorem configureDisplay_not_found (hdr : Headers) (os : OS) (display displayNum : Nat)
    (cfg : config) (allModes : List DisplayMode)
    (hmodes : os.allModes display = some allModes)
    (hno : ∀ x ∈ allModes, modeMatches hdr cfg x = false) :
    configureDisplay hdr os display cfg displayNum =
      some (0,
        [Event.stderr (("Error: mode ").toList ++ fmtUnsigned cfg.w ++ 'x' :: fmtUnsigned cfg.h ++
          'x' :: fmtUnsigned cfg.d ++ '@' :: Double.fmtFixed 6 cfg.r ++
          (" not available on display ").toList ++ fmtUnsigned displayNum ++ (".\n").toList)]) := by
  have h := searchLoop_no_match hdr cfg allModes 0 searchStart hno
  have h2 : (searchLoop hdr cfg allModes 0 searchStart).newMode = none := by
    rw [h]; rfl
  simp only [configureDisplay, hmodes, h2]

theorem setDisplayToMode_configure_mem (os : OS) (display mode d k : Nat)
    (h : Event.configureDisplayWithDisplayMode d k ∈ (setDisplayToMode os display mode).2) :
    d = display ∧ k = mode := by
  unfold setDisplayToMode at h
  split_ifs at h <;> simp at h <;> exact h

/-- Claim C1. When some entry of the mode list equals the request on width,
height, depth and refresh rate, `configureDisplay` selects the entry at the
smallest such index: it returns 1, and the mode it hands to `setDisplayToMode`
(the only mode any configuration call is given) is that entry, not a later
identical one. -/
theorem configureDisplay_selects_first_match (hdr : Headers) (os : OS)
    (display displayNum : Nat) (cfg : config) (allModes : List DisplayMode)
    (hmodes : os.allModes display = some allModes)
    (hexists : ∃ m ∈ allModes, m.width = cfg.w ∧ m.height = cfg.h ∧ bitDepth hdr m = cfg.d ∧
      Double.ceq m.refreshRate cfg.r = true) :
    ∃ i m, allModes.get? i = some m ∧
      (m.width = cfg.w ∧ m.height = cfg.h ∧ bitDepth hdr m = cfg.d ∧
        Double.ceq m.refreshRate cfg.r = true) ∧
      (∀ j x, j < i → allModes.get? j = some x →
        ¬ (x.width = cfg.w ∧ x.height = cfg.h ∧ bitDepth hdr x = cfg.d ∧
          Double.ceq x.refreshRate cfg.r = true)) ∧
      configureDisplay hdr os display cfg displayNum =
        some (1,
          Event.stdout (("Set mode on display ").toList ++ fmtUnsigned displayNum ++
            (" to ").toList ++ fmtMode m.width m.height (bitDepth hdr m) m.refreshRate ++ ['\n'])
            :: (setDisplayToMode os display i).2) ∧
      (∀ d k, Event.configureDisplayWithDisplayMode d k ∈
          (Event.stdout (("Set mode on display ").toList ++ fmtUnsigned displayNum ++
            (" to ").toList ++ fmtMode m.width m.height (bitDepth hdr m) m.refreshRate ++ ['\n'])
            :: (setDisplayToMode os display i).2) → d = display ∧ k = i) := by
  have hex : ∃ m ∈ allModes, modeMatches hdr cfg m = true := by
    obtain ⟨m, hm, h⟩ := hexists
    exact ⟨m, hm, (modeMatches_iff hdr cfg m).mpr h⟩
  obtain ⟨pre, m, post, hsplit, hpre, hm⟩ := exists_first_split (modeMatches hdr cfg) allModes hex
  subst hsplit
  refine ⟨pre.length, m, ?_, (modeMatches_iff hdr cfg m).mp hm, ?_, ?_, ?_⟩
  · rw [List.get?_eq_getElem?, List.getElem?_append_right (le_refl _)]
    simp
  · intro j x hj hx hmatch
    have hxpre : x ∈ pre := by
      have h1 : (pre ++ m :: post).get? j = pre.get? j := by
        simp only [List.get?_eq_getElem?]
        exact List.getElem?_append_left hj
      rw [h1] at hx
      exact List.get?_mem hx
    have := hpre x hxpre
    rw [(modeMatches_iff hdr cfg x).mpr hmatch] at this
    cases this
  · exact configureDisplay_found hdr os display displayNum cfg pre post m hmodes hpre hm
  · intro d k hmem
    rcases List.mem_cons.mp hmem with h | h
    · cases h
    · exact setDisplayToMode_configure_mem os display pre.length d k h

/-- Witness for claim C1: with two identical matching modes in the list, the
first one (index 0) is the one selected. -/
theorem configureDisplay_selects_first_match_witness :
    ∃ i m, [exampleMode Double.sixty, exampleMode Double.sixty].get? i = some m ∧
      (m.width = 1920 ∧ m.height = 1080 ∧ bitDepth (ioGraphicsTypes []) m = 32 ∧
        Double.ceq m.refreshRate Double.sixty = true) ∧
      (∀ j x, j < i → [exampleMode Double.sixty, exampleMode Double.sixty].get? j = some x →
        ¬ (x.width = 1920 ∧ x.height = 1080 ∧ bitDepth (ioGraphicsTypes []) x = 32 ∧
          Double.ceq x.refreshRate Double.sixty = true)) ∧
      configureDisplay (ioGraphicsTypes [])
          (exampleOS [exampleMode Double.sixty, exampleMode Double.sixty] 0 0 0) 7
          (config.mk 1920 1080 32 Double.sixty) 0 =
        some (1,
          Event.stdout (("Set mode on display ").toList ++ fmtUnsigned 0 ++
            (" to ").toList ++
            fmtMode m.width m.height (bitDepth (ioGraphicsTypes []) m) m.refreshRate ++ ['\n'])
            :: (setDisplayToMode
                (exampleOS [exampleMode Double.sixty, exampleMode Double.sixty] 0 0 0) 7 i).2) ∧
      (∀ d k, Event.configureDisplayWithDisplayMode d k ∈
          (Event.stdout (("Set mode on display ").toList ++ fmtUnsigned 0 ++
            (" to ").toList ++
            fmtMode m.width m.height (bitDepth (ioGraphicsTypes []) m) m.refreshRate ++ ['\n'])
            :: (setDisplayToMode
                (exampleOS [exampleMode Double.sixty, exampleMode Double.sixty] 0 0 0) 7 i).2) →
          d = 7 ∧ k = i) :=
  configureDisplay_selects_first_match (ioGraphicsTypes [])
    (exampleOS [exampleMode Double.sixty, exampleMode Double.sixty] 0 0 0) 7 0
    (config.mk 1920 1080 32 Double.sixty)
    [exampleMode Double.sixty, exampleMode Double.sixty] rfl
    ⟨exampleMode Double.sixty, by simp, by decide⟩

/-! ## Exit codes of `main` -/

theorem parseStringConfig_events (string : List Char) (out : config) :
    ∀ e ∈ (parseStringConfig string out).2.2, Event.isConfigurationCall e = false := by
  intro e he
  unfold parseStringConfig at he
  split_ifs at he <;> simp at he <;> subst he <;> rfl

/-- The `set` branch of `main` once the display list has been obtained. -/
theorem main_set (hdr : Headers) (os : OS) (prog string : List Char)
    (h1 : os.countError = 0) (h2 : os.mallocNull = false) (h3 : os.listError = 0) :
    main hdr os [prog, ("set").toList, string] =
      if (parseStringConfig string (config.mk 0 0 0 Double.nan)).1 ≠ 0 then
        match os.activeDisplays.head? with
        | none => none
        | some display =>
          match configureDisplay hdr os display
              (parseStringConfig string (config.mk 0 0 0 Double.nan)).2.1 0 with
          | none => none
          | some (rc, ev) =>
            some ((if rc = 0 then 1 else 0),
              (parseStringConfig string (config.mk 0 0 0 Double.nan)).2.2 ++ ev)
      else
        some (1, (parseStringConfig string (config.mk 0 0 0 Double.nan)).2.2) := by
  have hne : ¬ (("set").toList = ("get").toList) := by decide
  have hne2 : ¬ (("set").toList = ("list").toList) := by decide
  simp only [main, h1, h2, h3, List.length_cons, List.length_nil, List.get?, List.getD,
    Option.some.injEq, hne, hne2, if_false, if_true, ne_eq, not_true_eq_false]
  simp

/-- Claim C2. When no entry of the mode list equals the request on all four
fields (the rate compared exactly), `configureDisplay` returns 0 without any
display-configuration call, and a `set` invocation that parsed to this request
exits with status 1, its trace holding no display-configuration call. -/
theorem set_mode_not_found (hdr : Headers) (os : OS) (display displayNum : Nat)
    (cfg : config) (allModes : List DisplayMode)
    (hmodes : os.allModes display = some allModes)
    (hno : ∀ m ∈ allModes, ¬ (m.width = cfg.w ∧ m.height = cfg.h ∧ bitDepth hdr m = cfg.d ∧
      Double.ceq m.refreshRate cfg.r = true)) :
    configureDisplay hdr os display cfg displayNum =
      some (0,
        [Event.stderr (("Error: mode ").toList ++ fmtUnsigned cfg.w ++ 'x' :: fmtUnsigned cfg.h ++
          'x' :: fmtUnsigned cfg.d ++ '@' :: Double.fmtFixed 6 cfg.r ++
          (" not available on display ").toList ++ fmtUnsigned displayNum ++ (".\n").toList)]) ∧
    ∀ (prog string : List Char) (others : List Nat),
      os.activeDisplays = display :: others →
      (parseStringConfig string (config.mk 0 0 0 Double.nan)).1 ≠ 0 →
      (parseStringConfig string (config.mk 0 0 0 Double.nan)).2.1 = cfg →
      ∃ ev, main hdr os [prog, ("set").toList, string] = some (1, ev) ∧
        ∀ e ∈ ev, Event.isConfigurationCall e = false := by
  have hno2 : ∀ x ∈ allModes, modeMatches hdr cfg x = false := by
    intro x hx
    have := hno x hx
    rw [← modeMatches_iff] at this
    simpa using this
  refine ⟨configureDisplay_not_found hdr os display displayNum cfg allModes hmodes hno2, ?_⟩
  intro prog string others hdisp hparse hcfg
  by_cases h1 : os.countError = 0
  swap
  · exact ⟨_, by simp [main, h1]; rfl, by intro e he; simp at he; subst he; rfl⟩
  by_cases h2 : os.mallocNull = false
  swap
  · exact ⟨_, by simp [main, h1, h2]; rfl, by intro e he; simp at he; subst he; rfl⟩
  by_cases h3 : os.listError = 0
  swap
  · exact ⟨_, by simp [main, h1, h2, h3]; rfl, by intro e he; simp at he; subst he; rfl⟩
  rw [main_set hdr os prog string h1 h2 h3, if_pos hparse, hdisp, hcfg]
  simp only [List.head?_cons]
  rw [configureDisplay_not_found hdr os display 0 cfg allModes hmodes hno2]
  refine ⟨_, rfl, ?_⟩
  intro e he
  rcases List.mem_append.mp he with he | he
  · exact parseStringConfig_events _ _ e he
  · simp at he; subst he; rfl

/-- Witness for claim C2: the only mode runs at 59.94 Hz and the request is for
60 Hz. -/
theorem set_mode_not_found_witness :
    configureDisplay (ioGraphicsTypes []) (exampleOS [exampleMode rate5994] 0 0 0) 7
        (config.mk 1920 1080 32 (Double.finite false 8444249301319680 (-47))) 0 =
      some (0, [Event.stderr
        ("Error: mode 1920x1080x32@60.000000 not available on display 0.\n").toList]) ∧
    ∃ ev, main (ioGraphicsTypes []) (exampleOS [exampleMode rate5994] 0 0 0)
        [("screenresolution").toList, ("set").toList, ("1920x1080x32@60").toList] = some (1, ev) ∧
      ∀ e ∈ ev, Event.isConfigurationCall e = false :=
  have h := set_mode_not_found (ioGraphicsTypes []) (exampleOS [exampleMode rate5994] 0 0 0) 7 0
    (config.mk 1920 1080 32 (Double.finite false 8444249301319680 (-47)))
    [exampleMode rate5994] rfl (by intro m hm; simp at hm; subst hm; decide)
  ⟨h.1, h.2 ("screenresolution").toList ("1920x1080x32@60").toList [] rfl (by decide) (by decide)⟩

/-- Claim C3, the program at the failing input.  The requested mode is in the
list and `CGBeginDisplayConfiguration` fails with error 1001:
`setDisplayToMode` returns 0, yet `configureDisplay` returns 1 and `main`
exits with status 0. -/
theorem set_exit_ignores_configuration_failure :
    (setDisplayToMode (exampleOS [exampleMode Double.sixty] 1001 0 0) 7 0).1 = 0 ∧
    configureDisplay (ioGraphicsTypes []) (exampleOS [exampleMode Double.sixty] 1001 0 0) 7
        (config.mk 1920 1080 32 Double.sixty) 0 =
      some (1, [Event.stdout ("Set mode on display 0 to 1920x1080x32@60\n").toList,
        Event.beginDisplayConfiguration,
        Event.stderr ("Error: failed CGBeginDisplayConfiguration err(1001)\n").toList]) ∧
    main (ioGraphicsTypes []) (exampleOS [exampleMode Double.sixty] 1001 0 0)
        [("screenresolution").toList, ("set").toList, ("1920x1080x32@60").toList] =
      some (0, [Event.stdout ("Set mode on display 0 to 1920x1080x32@60\n").toList,
        Event.beginDisplayConfiguration,
        Event.stderr ("Error: failed CGBeginDisplayConfiguration err(1001)\n").toList]) := by
  decide

/-- Claim C9 fails as stated.  When the first display-list query fails, `main`
exits with status 1 on `-version` and prints no version line. -/
theorem version_exit_one_when_query_fails :
    main (ioGraphicsTypes ("1.6").toList)
        (OS.mk 1001 false 0 [] (fun _ => none) (fun _ => none) 0 (fun _ _ => 0) 0)
        [("screenresolution").toList, ("-version").toList] =
      some (1, [Event.stderr ("Error: failed to get list of active displays.\n").toList]) := by
  decide

/-- Claim C9, amended.  When the two display-list queries and the allocation
of the list succeed, `main` with first argument `-version`, whatever follows
it, prints the version and licence lines and exits with status 0. -/
theorem version_exit_zero (hdr : Headers) (os : OS) (prog : List Char)
    (more : List (List Char))
    (h1 : os.countError = 0) (h2 : os.mallocNull = false) (h3 : os.listError = 0) :
    main hdr os (prog :: ("-version").toList :: more) =
      some (0, [Event.stdout (("screenresolution version ").toList ++ hdr.VERSION ++
        ("\nLicensed under GPLv2\n").toList)]) := by
  have hne : ¬ (("-version").toList = ("get").toList) := by decide
  have hne2 : ¬ (("-version").toList = ("list").toList) := by decide
  have hne3 : ¬ (("-version").toList = ("set").toList) := by decide
  simp only [main, h1, h2, h3, List.length_cons, List.get?, Option.some.injEq, hne, hne2, hne3,
    if_false, if_true, ne_eq, not_true_eq_false]
  simp

/-- Witness for claim C9, amended: `-version` with a further argument, on a
machine with no display at all. -/
theorem version_exit_zero_witness :
    main (ioGraphicsTypes ("1.6").toList)
        (OS.mk 0 false 0 [] (fun _ => none) (fun _ => none) 0 (fun _ _ => 0) 0)
        [("screenresolution").toList, ("-version").toList, ("extra").toList] =
      some (0, [Event.stdout
        ("screenresolution version 1.6\nLicensed under GPLv2\n").toList]) :=
  version_exit_zero (ioGraphicsTypes ("1.6").toList)
    (OS.mk 0 false 0 [] (fun _ => none) (fun _ => none) 0 (fun _ _ => 0) 0)
    ("screenresolution").toList [("extra").toList] rfl rfl rfl

/-! ## Depth resolution (`bitDepth`) -/

theorem cfEqualCaseInsensitive_iff (a b : List Char) :
    cfEqualCaseInsensitive a b = true ↔ a.map lower = b.map lower := by
  simp [cfEqualCaseInsensitive]

theorem cfEqualCaseInsensitive_trans_false (a b c : List Char)
    (hab : cfEqualCaseInsensitive a b = true) (hbc : cfEqualCaseInsensitive b c = false) :
    cfEqualCaseInsensitive a c = false := by
  cases h : cfEqualCaseInsensitive a c with
  | false => rfl
  | true =>
    rw [cfEqualCaseInsensitive_iff] at hab h
    have : cfEqualCaseInsensitive b c = true := by
      rw [cfEqualCaseInsensitive_iff, ← hab, h]
    rw [this] at hbc
    cases hbc

theorem cfEqualCaseInsensitive_symm (a b : List Char) :
    cfEqualCaseInsensitive a b = cfEqualCaseInsensitive b a := by
  simp only [cfEqualCaseInsensitive]
  by_cases h : a.map lower = b.map lower
  · simp [h]
  · have h2 : ¬ (b.map lower = a.map lower) := fun e => h e.symm
    simp [h, h2]

/-- Claim C8. `bitDepth` is a total function of the pixel-encoding string: for
encoding constants that differ from one another (as those of IOKit do) it
returns 96, 64, 48, 32, 30, 16 and 8 for a string equal, letter case aside, to
the 32-bit float, 64-bit direct, 16-bit float, 32-bit direct, 30-bit direct,
16-bit direct and 8-bit indexed encoding, and 0 for any other string; its
value is always one of 96, 64, 48, 32, 30, 16, 8, 0. -/
theorem bitDepth_table (hdr : Headers) (mode : DisplayMode)
    (hdistinct : hdr.encodings.Pairwise (fun a b => cfEqualCaseInsensitive a b = false)) :
    (cfEqualCaseInsensitive mode.pixelEncoding hdr.kIO32BitFloatPixels = true →
      bitDepth hdr mode = 96) ∧
    (cfEqualCaseInsensitive mode.pixelEncoding hdr.kIO64BitDirectPixels = true →
      bitDepth hdr mode = 64) ∧
    (cfEqualCaseInsensitive mode.pixelEncoding hdr.kIO16BitFloatPixels = true →
      bitDepth hdr mode = 48) ∧
    (cfEqualCaseInsensitive mode.pixelEncoding hdr.IO32BitDirectPixels = true →
      bitDepth hdr mode = 32) ∧
    (cfEqualCaseInsensitive mode.pixelEncoding hdr.kIO30BitDirectPixels = true →
      bitDepth hdr mode = 30) ∧
    (cfEqualCaseInsensitive mode.pixelEncoding hdr.IO16BitDirectPixels = true →
      bitDepth hdr mode = 16) ∧
    (cfEqualCaseInsensitive mode.pixelEncoding hdr.IO8BitIndexedPixels = true →
      bitDepth hdr mode = 8) ∧
    ((∀ e ∈ hdr.encodings, cfEqualCaseInsensitive mode.pixelEncoding e = false) →
      bitDepth hdr mode = 0) ∧
    bitDepth hdr mode ∈ [96, 64, 48, 32, 30, 16, 8, 0] := by
  simp only [Headers.encodings, List.pairwise_cons, List.mem_cons, List.mem_singleton,
    forall_eq_or_imp, forall_eq, List.not_mem_nil, false_implies, implies_true,
    List.Pairwise.nil, and_true] at hdistinct
  obtain ⟨⟨h12, h13, h14, h15, h16, h17⟩, ⟨h23, h24, h25, h26, h27⟩, ⟨h34, h35, h36, h37⟩,
    ⟨h45, h46, h47⟩, ⟨h56, h57⟩, h67⟩ := hdistinct
  have sw := fun (a b : List Char) (h : cfEqualCaseInsensitive a b = false) =>
    (cfEqualCaseInsensitive_symm b a).trans h
  refine ⟨?_, ?_, ?_, ?_, ?_, ?_, ?_, ?_, ?_⟩
  · intro h; simp [bitDepth, h]
  · intro h
    simp [bitDepth, h, cfEqualCaseInsensitive_trans_false _ _ _ h (sw _ _ h12)]
  · intro h
    simp [bitDepth, h, cfEqualCaseInsensitive_trans_false _ _ _ h (sw _ _ h13),
      cfEqualCaseInsensitive_trans_false _ _ _ h (sw _ _ h23)]
  · intro h
    simp [bitDepth, h, cfEqualCaseInsensitive_trans_false _ _ _ h (sw _ _ h14),
      cfEqualCaseInsensitive_trans_false _ _ _ h (sw _ _ h24),
      cfEqualCaseInsensitive_trans_false _ _ _ h (sw _ _ h34)]
  · intro h
    simp [bitDepth, h, cfEqualCaseInsensitive_trans_false _ _ _ h (sw _ _ h15),
      cfEqualCaseInsensitive_trans_false _ _ _ h (sw _ _ h25),
      cfEqualCaseInsensitive_trans_false _ _ _ h (sw _ _ h35),
      cfEqualCaseInsensitive_trans_false _ _ _ h (sw _ _ h45)]
  · intro h
    simp [bitDepth, h, cfEqualCaseInsensitive_trans_false _ _ _ h (sw _ _ h16),
      cfEqualCaseInsensitive_trans_false _ _ _ h (sw _ _ h26),
      cfEqualCaseInsensitive_trans_false _ _ _ h (sw _ _ h36),
      cfEqualCaseInsensitive_trans_false _ _ _ h (sw _ _ h46),
      cfEqualCaseInsensitive_trans_false _ _ _ h (sw _ _ h56)]
  · intro h
    simp [bitDepth, h, cfEqualCaseInsensitive_trans_false _ _ _ h (sw _ _ h17),
      cfEqualCaseInsensitive_trans_false _ _ _ h (sw _ _ h27),
      cfEqualCaseInsensitive_trans_false _ _ _ h (sw _ _ h37),
      cfEqualCaseInsensitive_trans_false _ _ _ h (sw _ _ h47),
      cfEqualCaseInsensitive_trans_false _ _ _ h (sw _ _ h57),
      cfEqualCaseInsensitive_trans_false _ _ _ h (sw _ _ h67)]
  · intro h
    simp only [Headers.encodings, List.mem_cons, List.mem_singleton, forall_eq_or_imp, forall_eq,
      List.not_mem_nil, false_implies, implies_true, and_true] at h
    obtain ⟨e1, e2, e3, e4, e5, e6, e7⟩ := h
    simp [bitDepth, e1, e2, e3, e4, e5, e6, e7]
  · unfold bitDepth
    split_ifs <;> simp

/-- Witness for claim C8: the IOKit encodings, and a mode whose descriptor is
the 32-bit direct encoding written in lower case. -/
theorem bitDepth_table_witness :
    bitDepth (ioGraphicsTypes [])
        (DisplayMode.mk 1920 1080 ("--------rrrrrrrrggggggggbbbbbbbb").toList Double.sixty) = 32 ∧
    bitDepth (ioGraphicsTypes [])
        (DisplayMode.mk 1920 1080 ("--------rrrrrrrrggggggggbbbbbbbb").toList Double.sixty)
      ∈ [96, 64, 48, 32, 30, 16, 8, 0] :=
  have h := bitDepth_table (ioGraphicsTypes [])
    (DisplayMode.mk 1920 1080 ("--------rrrrrrrrggggggggbbbbbbbb").toList Double.sixty)
    (by decide)
  ⟨h.2.2.2.1 (by decide), h.2.2.2.2.2.2.2.2⟩

/-! ## Lemmas: digits and the `%lu` conversion -/

theorem digitChar_isdigit (d : Nat) (h : d < 10) :
    isdigit (Nat.digitChar d) = true ∧ digitVal (Nat.digitChar d) = d := by
  interval_cases d <;> decide

theorem decValue_append_singleton (l : List Char) (c : Char) :
    decValue (l ++ [c]) = 10 * decValue l + digitVal c := by
  simp [decValue, List.foldl_append]

/-- Shape of the digits `Nat.toDigitsCore` puts in front of its accumulator. -/
theorem toDigitsCore_spec : ∀ (fuel n : Nat) (ds : List Char), n < fuel →
    ∃ l, Nat.toDigitsCore 10 fuel n ds = l ++ ds ∧ l ≠ [] ∧
      (∀ c ∈ l, isdigit c = true) ∧ decValue l = n := by
  intro fuel
  induction fuel with
  | zero => intro n ds h; omega
  | succ fuel ih =>
    intro n ds h
    have hd := digitChar_isdigit (n % 10) (Nat.mod_lt _ (by decide))
    by_cases h0 : n / 10 = 0
    · refine ⟨[Nat.digitChar (n % 10)], ?_, by simp, ?_, ?_⟩
      · simp [Nat.toDigitsCore, h0]
      · intro c hc
        simp at hc
        subst hc
        exact hd.1
      · have hn : n % 10 = n := by omega
        have h2 : digitVal (Nat.digitChar (n % 10)) = n := hd.2.trans hn
        simp [decValue, h2]
    · have hlt : n / 10 < fuel := by omega
      obtain ⟨l, hl, hne, hdig, hval⟩ := ih (n / 10) (Nat.digitChar (n % 10) :: ds) hlt
      refine ⟨l ++ [Nat.digitChar (n % 10)], ?_, by simp, ?_, ?_⟩
      · simp [Nat.toDigitsCore, h0, hl]
      · intro c hc
        rcases List.mem_append.mp hc with hc | hc
        · exact hdig c hc
        · simp at hc
          subst hc
          exact hd.1
      · rw [decValue_append_singleton, hval, hd.2]
        omega

/-- The text of `%lu` is a non-empty run of digits whose value is the number. -/
theorem fmtUnsigned_spec (n : Nat) :
    fmtUnsigned n ≠ [] ∧ (∀ c ∈ fmtUnsigned n, isdigit c = true) ∧
      decValue (fmtUnsigned n) = n := by
  obtain ⟨l, hl, hne, hdig, hval⟩ := toDigitsCore_spec (n + 1) n [] (Nat.lt_succ_self n)
  have : fmtUnsigned n = l := by simp [fmtUnsigned, Nat.toDigits, hl]
  rw [this]
  exact ⟨hne, hdig, hval⟩

theorem isspace_of_isdigit (c : Char) (h : isdigit c = true) : isspace c = false := by
  cases hs : isspace c with
  | false => rfl
  | true =>
    simp only [isspace, Bool.or_eq_true, beq_iff_eq] at hs
    rcases hs with ((((rfl | rfl) | rfl) | rfl) | rfl) | rfl <;> exact absurd h (by decide)

theorem not_sign_of_isdigit (c : Char) (h : isdigit c = true) : c ≠ '-' ∧ c ≠ '+' := by
  constructor <;> (rintro rfl; exact absurd h (by decide))

theorem spanClass_append (p : Char → Bool) (l rest : List Char)
    (hl : ∀ c ∈ l, p c = true) (hrest : stopsAt p rest) :
    spanClass p (l ++ rest) = (l, rest) := by
  induction l with
  | nil =>
    cases rest with
    | nil => rfl
    | cons c t =>
      have hc : p c = false := hrest
      simp [spanClass, hc]
  | cons a l ih =>
    have ha : p a = true := hl a (List.mem_cons_self _ _)
    have := ih (fun c hc => hl c (List.mem_cons_of_mem _ hc))
    simp [spanClass, ha, this]

theorem spanClass_spec (p : Char → Bool) (s : List Char) :
    s = (spanClass p s).1 ++ (spanClass p s).2 ∧ (∀ c ∈ (spanClass p s).1, p c = true) ∧
      stopsAt p (spanClass p s).2 := by
  induction s with
  | nil => simp [spanClass, stopsAt]
  | cons a s ih =>
    by_cases ha : p a = true
    · obtain ⟨h1, h2, h3⟩ := ih
      simp only [spanClass, ha, if_true, List.cons_append]
      refine ⟨by rw [← h1], ?_, h3⟩
      intro c hc
      rcases List.mem_cons.mp hc with rfl | hc
      · exact ha
      · exact h2 c hc
    · have ha2 : p a = false := by simpa using ha
      simp [spanClass, ha2, stopsAt]

theorem skipSpaces_spec (s : List Char) :
    ∃ ws, s = ws ++ skipSpaces s ∧ (∀ c ∈ ws, isspace c = true) ∧ stopsAt isspace (skipSpaces s) := by
  induction s with
  | nil => exact ⟨[], rfl, by simp, trivial⟩
  | cons a s ih =>
    by_cases ha : isspace a = true
    · obtain ⟨ws, h1, h2, h3⟩ := ih
      refine ⟨a :: ws, ?_, ?_, ?_⟩
      · simp only [skipSpaces, ha, if_true, List.cons_append]
        rw [← h1]
      · intro c hc
        rcases List.mem_cons.mp hc with rfl | hc
        · exact ha
        · exact h2 c hc
      · simpa [skipSpaces, ha] using h3
    · have ha2 : isspace a = false := by simpa using ha
      exact ⟨[], by simp [skipSpaces, ha2], by simp, by simp [skipSpaces, ha2, stopsAt]⟩

theorem skipSpaces_of_digit (c : Char) (t : List Char) (h : isdigit c = true) :
    skipSpaces (c :: t) = c :: t := by
  simp [skipSpaces, isspace_of_isdigit c h]

theorem takeSign_of_digit (c : Char) (t : List Char) (h : isdigit c = true) :
    takeSign (c :: t) = (false, c :: t) := by
  have := not_sign_of_isdigit c h
  simp [takeSign, this.1, this.2]

/-- `%lu` on a run of digits followed by something that is not a digit reads
the run. -/
theorem scanUnsigned_digits (ds rest : List Char) (hne : ds ≠ [])
    (hds : ∀ c ∈ ds, isdigit c = true) (hrest : stopsAt isdigit rest) :
    scanUnsigned (ds ++ rest) = Conv.ok (strtoul false (decValue ds)) rest := by
  cases ds with
  | nil => exact absurd rfl hne
  | cons c t =>
    have hc : isdigit c = true := hds c (List.mem_cons_self _ _)
    have hspan := spanClass_append isdigit (c :: t) rest hds hrest
    simp only [List.cons_append] at hspan ⊢
    simp only [scanUnsigned, skipSpaces_of_digit c _ hc, takeSign_of_digit c _ hc, hspan]
    simp

theorem strtoul_of_lt (n : Nat) (h : n < 2 ^ 64) : strtoul false n = n := by
  have : ¬ (ULONG_MAX < n) := by
    simp only [ULONG_MAX]
    omega
  simp [strtoul, this]

/-- `%lu` reads back what `%lu` printed, when a non-digit (or nothing) follows. -/
theorem scanUnsigned_fmtUnsigned (n : Nat) (rest : List Char) (h : n < 2 ^ 64)
    (hrest : stopsAt isdigit rest) :
    scanUnsigned (fmtUnsigned n ++ rest) = Conv.ok n rest := by
  obtain ⟨hne, hds, hval⟩ := fmtUnsigned_spec n
  rw [scanUnsigned_digits _ _ hne hds hrest, hval, strtoul_of_lt n h]

/-! ## The mode string parser: rejected strings -/

theorem scanDirectives_lu (fmt : List Directive) (n : Nat) (rest : List Char) (h : n < 2 ^ 64)
    (hrest : stopsAt isdigit rest) :
    scanDirectives (Directive.lu :: fmt) (fmtUnsigned n ++ rest) =
      (Item.ulong n :: (scanDirectives fmt rest).1, (scanDirectives fmt rest).2) := by
  simp [scanDirectives, scanUnsigned_fmtUnsigned n rest h hrest]

theorem scanDirectives_lit (fmt : List Directive) (c : Char) (t : List Char) :
    scanDirectives (Directive.lit c :: fmt) (c :: t) = scanDirectives fmt t := by
  simp [scanDirectives]

theorem stopsAt_x (t : List Char) : stopsAt isdigit ('x' :: t) := by
  show isdigit 'x' = false
  decide

theorem stopsAt_at (t : List Char) : stopsAt isdigit ('@' :: t) := by
  show isdigit '@' = false
  decide

theorem takeSign_spec (s : List Char) :
    ∃ sg, s = sg ++ (takeSign s).2 ∧ (sg = [] ∨ sg = ['+'] ∨ sg = ['-']) := by
  cases s with
  | nil => exact ⟨[], rfl, Or.inl rfl⟩
  | cons c t =>
    by_cases h1 : c = '-'
    · exact ⟨['-'], by simp [takeSign, h1], Or.inr (Or.inr rfl)⟩
    · by_cases h2 : c = '+'
      · exact ⟨['+'], by simp [takeSign, h2], Or.inr (Or.inl rfl)⟩
      · exact ⟨[], by simp [takeSign, h1, h2], Or.inl rfl⟩

/-- What `%lu` consumed is a field of the grammar. -/
theorem scanUnsigned_sound (s : List Char) (v : Nat) (rest : List Char)
    (h : scanUnsigned s = Conv.ok v rest) : ∃ f, isUnsignedField f ∧ s = f ++ rest := by
  obtain ⟨ws, hws, hsp, _⟩ := skipSpaces_spec s
  unfold scanUnsigned at h
  cases hk : skipSpaces s with
  | nil => rw [hk] at h; cases h
  | cons c cs =>
    rw [hk] at h hws
    simp only at h
    obtain ⟨sg, hsg, hsign⟩ := takeSign_spec (c :: cs)
    obtain ⟨hsplit, hdig, _⟩ := spanClass_spec isdigit (takeSign (c :: cs)).2
    by_cases hemp : (spanClass isdigit (takeSign (c :: cs)).2).1 = []
    · rw [if_pos hemp] at h; cases h
    · rw [if_neg hemp] at h
      injection h with _ hrest
      refine ⟨ws ++ sg ++ (spanClass isdigit (takeSign (c :: cs)).2).1,
        ⟨ws, sg, _, rfl, hsp, hsign, hemp, hdig⟩, ?_⟩
      rw [← hrest, List.append_assoc, List.append_assoc, ← hsplit, ← hsg, ← hws]

/-- Two or more assignments by a format starting `%lux%lu` mean the string
starts with two fields and an `x` between them. -/
theorem startsWithWxH_of_two (fmt : List Directive) (s : List Char)
    (h : 2 ≤ (scanDirectives (Directive.lu :: Directive.lit 'x' :: Directive.lu :: fmt) s).1.length) :
    startsWithWxH s := by
  simp only [scanDirectives] at h
  cases h1 : scanUnsigned s with
  | matchFailure => rw [h1] at h; simp at h
  | inputFailure => rw [h1] at h; simp at h
  | ok v1 r1 =>
    rw [h1] at h
    simp only at h
    cases r1 with
    | nil => simp at h
    | cons a t =>
      simp only at h
      by_cases ha : a = 'x'
      · subst ha
        simp only [if_true] at h
        cases h2 : scanUnsigned t with
        | matchFailure => rw [h2] at h; simp at h
        | inputFailure => rw [h2] at h; simp at h
        | ok v2 r2 =>
          obtain ⟨f1, hf1, hs1⟩ := scanUnsigned_sound s v1 _ h1
          obtain ⟨f2, hf2, hs2⟩ := scanUnsigned_sound t v2 _ h2
          exact ⟨f1, f2, r2, hf1, hf2, by rw [hs1, hs2]⟩
      · rw [if_neg ha] at h
        simp at h

theorem sscanf_count_le (s : List Char) (fmt : List Directive) (k : Nat)
    (h : (sscanf s fmt).1 = (k : Int)) : k = (scanDirectives fmt s).1.length := by
  unfold sscanf at h
  simp only at h
  split_ifs at h
  exact_mod_cast h.symm

theorem not_startsWithWxH_counts (s : List Char) (h : ¬ startsWithWxH s) :
    (sscanf s fmtWHDR).1 ≠ 4 ∧ (sscanf s fmtWHD).1 ≠ 3 ∧ (sscanf s fmtWH).1 ≠ 2 := by
  refine ⟨?_, ?_, ?_⟩
  · intro h4
    have := sscanf_count_le s fmtWHDR 4 h4
    rw [fmtWHDR] at this
    exact h (startsWithWxH_of_two _ s (by rw [← this]; decide))
  · intro h3
    have := sscanf_count_le s fmtWHD 3 h3
    rw [fmtWHD] at this
    exact h (startsWithWxH_of_two _ s (by rw [← this]; decide))
  · intro h2
    have := sscanf_count_le s fmtWH 2 h2
    rw [fmtWH] at this
    exact h (startsWithWxH_of_two _ s (by rw [← this]))

theorem not_startsWithWxH_of_head (c : Char) (t : List Char)
    (h1 : isspace c = false) (h2 : isdigit c = false) (h3 : c ≠ '+') (h4 : c ≠ '-') :
    ¬ startsWithWxH (c :: t) := by
  rintro ⟨f1, f2, rest, ⟨ws, sg, ds, hf, hws, hsg, hne, hds⟩, _, hs⟩
  subst hf
  cases ws with
  | cons a ws =>
    simp only [List.cons_append, List.cons.injEq] at hs
    have := hws a (List.mem_cons_self _ _)
    rw [← hs.1, h1] at this
    cases this
  | nil =>
    rcases hsg with rfl | rfl | rfl
    · cases ds with
      | nil => exact hne rfl
      | cons a ds =>
        simp only [List.nil_append, List.cons_append, List.cons.injEq] at hs
        have := hds a (List.mem_cons_self _ _)
        rw [← hs.1, h2] at this
        cases this
    · simp only [List.nil_append, List.cons_append, List.cons.injEq] at hs
      exact h3 hs.1
    · simp only [List.nil_append, List.cons_append, List.cons.injEq] at hs
      exact h4 hs.1

/-! ## The mode string parser: defaulted fields -/

theorem sscanf_of_scanDirectives (s : List Char) (fmt : List Directive) (items : List Item)
    (flag : Bool) (h : scanDirectives fmt s = (items, flag)) :
    sscanf s fmt = ((if flag = true ∧ items = [] then -1 else (items.length : Int)), items) := by
  simp [sscanf, h]

theorem scanDirectives_lit_nil (c : Char) (fmt : List Directive) :
    scanDirectives (Directive.lit c :: fmt) [] = ([], true) := rfl

theorem scanDirectives_nil (s : List Char) : scanDirectives [] s = ([], false) := by
  cases s <;> rfl

theorem sscanf_WHD (fmt : List Directive) (w h d : Nat) (hw : w < 2 ^ 64) (hh : h < 2 ^ 64)
    (hd : d < 2 ^ 64) (rest : List Char) (hrest : stopsAt isdigit rest) :
    scanDirectives (Directive.lu :: Directive.lit 'x' :: Directive.lu :: Directive.lit 'x' ::
        Directive.lu :: fmt) (fmtUnsigned w ++ 'x' :: (fmtUnsigned h ++ 'x' :: (fmtUnsigned d ++ rest))) =
      (Item.ulong w :: Item.ulong h :: Item.ulong d :: (scanDirectives fmt rest).1,
        (scanDirectives fmt rest).2) := by
  rw [scanDirectives_lu _ w _ hw (stopsAt_x _), scanDirectives_lit,
    scanDirectives_lu _ h _ hh (stopsAt_x _), scanDirectives_lit,
    scanDirectives_lu _ d _ hd hrest]

theorem sscanf_WH (fmt : List Directive) (w h : Nat) (hw : w < 2 ^ 64) (hh : h < 2 ^ 64) :
    scanDirectives (Directive.lu :: Directive.lit 'x' :: Directive.lu :: fmt)
        (fmtUnsigned w ++ 'x' :: fmtUnsigned h) =
      (Item.ulong w :: Item.ulong h :: (scanDirectives fmt []).1, (scanDirectives fmt []).2) := by
  have := scanDirectives_lu fmt h [] hh trivial
  rw [List.append_nil] at this
  rw [scanDirectives_lu _ w _ hw (stopsAt_x _), scanDirectives_lit, this]

/-- Claim C6. Omitted fields are defaulted.  For `w`, `h`, `d` in the range of
`unsigned long`, the string `WxHxD` parses to `{w, h, d, 60.0}` with the
advisory that the refresh rate was defaulted, and `WxH` parses to
`{w, h, 32, 60.0}` with the advisory that depth and refresh rate were
defaulted.  After any successful parse all four fields of `*out` have been
written: the result does not depend on what `*out` held before. -/
theorem parseStringConfig_defaults (w h d : Nat) (hw : w < 2 ^ 64) (hh : h < 2 ^ 64)
    (hd : d < 2 ^ 64) (out : config) :
    parseStringConfig (fmtUnsigned w ++ 'x' :: (fmtUnsigned h ++ 'x' :: fmtUnsigned d)) out =
      (1, config.mk w h d Double.sixty,
        [Event.stdout ("Warning: no refresh rate specified, assuming 60.0Hz.\n").toList]) ∧
    parseStringConfig (fmtUnsigned w ++ 'x' :: fmtUnsigned h) out =
      (1, config.mk w h 32 Double.sixty,
        [Event.stdout ("Warning: no pixel-depth and no refresh rate specified, assuming 32 bit and 60.0Hz.\n").toList]) ∧
    (∀ (string : List Char) (out1 out2 : config), (parseStringConfig string out1).1 ≠ 0 →
      (parseStringConfig string out1).2.1 = (parseStringConfig string out2).2.1) := by
  refine ⟨?_, ?_, ?_⟩
  · have e4 := sscanf_WHD [Directive.lit '@', Directive.lf] w h d hw hh hd [] trivial
    have e3 := sscanf_WHD [] w h d hw hh hd [] trivial
    rw [List.append_nil, scanDirectives_lit_nil] at e4
    rw [List.append_nil, scanDirectives_nil] at e3
    have c4 : (sscanf (fmtUnsigned w ++ 'x' :: (fmtUnsigned h ++ 'x' :: fmtUnsigned d)) fmtWHDR).1 = 3 := by
      rw [fmtWHDR, sscanf_of_scanDirectives _ _ _ _ e4]
      simp
    have c3 : sscanf (fmtUnsigned w ++ 'x' :: (fmtUnsigned h ++ 'x' :: fmtUnsigned d)) fmtWHD =
        (3, [Item.ulong w, Item.ulong h, Item.ulong d]) := by
      rw [fmtWHD, sscanf_of_scanDirectives _ _ _ _ e3]
      simp
    simp [parseStringConfig, c4, c3, ulongAt]
  · have e4 := sscanf_WH [Directive.lit 'x', Directive.lu, Directive.lit '@', Directive.lf] w h hw hh
    have e3 := sscanf_WH [Directive.lit 'x', Directive.lu] w h hw hh
    have e2 := sscanf_WH [] w h hw hh
    rw [scanDirectives_lit_nil] at e4 e3
    rw [scanDirectives_nil] at e2
    have c4 : (sscanf (fmtUnsigned w ++ 'x' :: fmtUnsigned h) fmtWHDR).1 = 2 := by
      rw [fmtWHDR, sscanf_of_scanDirectives _ _ _ _ e4]
      simp
    have c3 : (sscanf (fmtUnsigned w ++ 'x' :: fmtUnsigned h) fmtWHD).1 = 2 := by
      rw [fmtWHD, sscanf_of_scanDirectives _ _ _ _ e3]
      simp
    have c2 : sscanf (fmtUnsigned w ++ 'x' :: fmtUnsigned h) fmtWH =
        (2, [Item.ulong w, Item.ulong h]) := by
      rw [fmtWH, sscanf_of_scanDirectives _ _ _ _ e2]
      simp
    simp [parseStringConfig, c4, c3, c2, ulongAt]
  · intro string out1 out2 hok
    unfold parseStringConfig at hok ⊢
    split_ifs at hok ⊢ <;> first | rfl | exact absurd rfl hok

/-- Witness for claim C6: `1920x1080x32` and `1920x1080` both parse to
`{1920, 1080, 32, 60.0}`. -/
theorem parseStringConfig_defaults_witness :
    parseStringConfig ("1920x1080x32").toList (config.mk 0 0 0 Double.nan) =
      (1, config.mk 1920 1080 32 Double.sixty,
        [Event.stdout ("Warning: no refresh rate specified, assuming 60.0Hz.\n").toList]) ∧
    parseStringConfig ("1920x1080").toList (config.mk 0 0 0 Double.nan) =
      (1, config.mk 1920 1080 32 Double.sixty,
        [Event.stdout ("Warning: no pixel-depth and no refresh rate specified, assuming 32 bit and 60.0Hz.\n").toList]) :=
  have h := parseStringConfig_defaults 1920 1080 32 (by decide) (by decide) (by decide)
    (config.mk 0 0 0 Double.nan)
  ⟨h.1, h.2.1⟩

/-! ## The grammar predicate is exact: a string that starts with two fields is accepted -/

theorem skipSpaces_append (ws t : List Char) (hws : ∀ c ∈ ws, isspace c = true) :
    skipSpaces (ws ++ t) = skipSpaces t := by
  induction ws with
  | nil => rfl
  | cons a ws ih =>
    have ha : isspace a = true := hws a (List.mem_cons_self _ _)
    simp only [List.cons_append, skipSpaces, ha, if_true]
    exact ih (fun c hc => hws c (List.mem_cons_of_mem _ hc))

theorem spanClass_append_all (p : Char → Bool) (l rest : List Char)
    (hl : ∀ c ∈ l, p c = true) :
    spanClass p (l ++ rest) = (l ++ (spanClass p rest).1, (spanClass p rest).2) := by
  induction l with
  | nil => rfl
  | cons a l ih =>
    have ha : p a = true := hl a (List.mem_cons_self _ _)
    have := ih (fun c hc => hl c (List.mem_cons_of_mem _ hc))
    simp [spanClass, ha, this]

/-- `%lu` accepts a field of the grammar, whatever follows it, and stops right
after the field when no digit follows. -/
theorem scanUnsigned_field (f rest : List Char) (hf : isUnsignedField f) :
    ∃ v r, scanUnsigned (f ++ rest) = Conv.ok v r ∧ (stopsAt isdigit rest → r = rest) := by
  obtain ⟨ws, sg, ds, rfl, hws, hsg, hne, hds⟩ := hf
  cases ds with
  | nil => exact absurd rfl hne
  | cons d0 ds1 =>
    have hd0 : isdigit d0 = true := hds d0 (List.mem_cons_self _ _)
    have hspan := spanClass_append_all isdigit (d0 :: ds1) rest hds
    have hstop : stopsAt isdigit rest → (spanClass isdigit rest) = ([], rest) := by
      intro h
      cases rest with
      | nil => rfl
      | cons c t =>
        have hc : isdigit c = false := h
        simp [spanClass, hc]
    have e : ws ++ sg ++ d0 :: ds1 ++ rest = ws ++ (sg ++ (d0 :: ds1 ++ rest)) := by simp
    rw [e]
    rcases hsg with rfl | rfl | rfl
    · simp only [List.nil_append, List.cons_append]
      simp only [List.cons_append] at hspan
      refine ⟨strtoul false (decValue (d0 :: (ds1 ++ (spanClass isdigit rest).1))),
        (spanClass isdigit rest).2, ?_, ?_⟩
      · simp only [scanUnsigned, skipSpaces_append ws _ hws, skipSpaces_of_digit d0 _ hd0,
          takeSign_of_digit d0 _ hd0, hspan]
        simp
      · intro h
        simp [hstop h]
    · have hsp : skipSpaces ('+' :: (d0 :: ds1 ++ rest)) = '+' :: (d0 :: ds1 ++ rest) := by
        have : isspace '+' = false := by decide
        simp [skipSpaces, this]
      have hts : takeSign ('+' :: (d0 :: ds1 ++ rest)) = (false, d0 :: ds1 ++ rest) := by
        simp [takeSign]
      refine ⟨strtoul false (decValue (d0 :: (ds1 ++ (spanClass isdigit rest).1))),
        (spanClass isdigit rest).2, ?_, ?_⟩
      · simp only [List.singleton_append, scanUnsigned, skipSpaces_append ws _ hws, hsp, hts,
          hspan]
        simp
      · intro h
        simp [hstop h]
    · have hsp : skipSpaces ('-' :: (d0 :: ds1 ++ rest)) = '-' :: (d0 :: ds1 ++ rest) := by
        have : isspace '-' = false := by decide
        simp [skipSpaces, this]
      have hts : takeSign ('-' :: (d0 :: ds1 ++ rest)) = (true, d0 :: ds1 ++ rest) := by
        simp [takeSign]
      refine ⟨strtoul true (decValue (d0 :: (ds1 ++ (spanClass isdigit rest).1))),
        (spanClass isdigit rest).2, ?_, ?_⟩
      · simp only [List.singleton_append, scanUnsigned, skipSpaces_append ws _ hws, hsp, hts,
          hspan]
        simp
      · intro h
        simp [hstop h]

/-- A string that starts as the grammar `WIDTHxHEIGHT` requires is accepted by
`parseStringConfig`, so `startsWithWxH` is exactly the condition under which a
mode string parses. -/
theorem parseStringConfig_accepts (s : List Char) (out : config) (h : startsWithWxH s) :
    (parseStringConfig s out).1 = 1 := by
  obtain ⟨f1, f2, rest, hf1, hf2, rfl⟩ := h
  obtain ⟨v1, r1, h1, hr1⟩ := scanUnsigned_field f1 ('x' :: (f2 ++ rest)) hf1
  obtain ⟨v2, r2, h2, _⟩ := scanUnsigned_field f2 rest hf2
  have hr1' := hr1 (stopsAt_x _)
  subst hr1'
  have e2 : scanDirectives fmtWH (f1 ++ 'x' :: (f2 ++ rest)) =
      ([Item.ulong v1, Item.ulong v2], false) := by
    simp [fmtWH, scanDirectives, h1, h2, scanDirectives_nil]
  have c2 : (sscanf (f1 ++ 'x' :: (f2 ++ rest)) fmtWH).1 = 2 := by
    simp [sscanf, e2]
  unfold parseStringConfig
  split_ifs with a b c
  · exact absurd c2 c
  · rfl
  · rfl
  · rfl

/-! ## The mode string parser: which strings are rejected -/

theorem startsWithWxH_of_grammar (s : List Char)
    (h : matchesWxHxDatR s ∨ matchesWxHxD s ∨ matchesWxH s) : startsWithWxH s := by
  rcases h with ⟨f1, f2, f3, t, h1, h2, _, _, rfl⟩ | ⟨f1, f2, f3, h1, h2, _, rfl⟩ |
    ⟨f1, f2, h1, h2, rfl⟩
  · exact ⟨f1, f2, 'x' :: (f3 ++ '@' :: t), h1, h2, rfl⟩
  · exact ⟨f1, f2, 'x' :: f3, h1, h2, rfl⟩
  · exact ⟨f1, f2, [], h1, h2, by simp⟩

/-- Where `%lu` stops on a field followed by a character that is not a digit. -/
theorem scanUnsigned_field_rest (f rest s : List Char) (v : Nat) (r : List Char)
    (hf : isUnsignedField f) (hs : s = f ++ rest) (hrest : stopsAt isdigit rest)
    (hscan : scanUnsigned s = Conv.ok v r) : r = rest := by
  obtain ⟨v1, r1, h1, hr1⟩ := scanUnsigned_field f rest hf
  rw [← hs, hscan] at h1
  injection h1 with _ h2
  rw [h2]
  exact hr1 hrest

theorem scanUnsigned_field_ok (f rest : List Char) (hf : isUnsignedField f)
    (hfail : scanUnsigned (f ++ rest) = Conv.matchFailure) : False := by
  obtain ⟨v1, r1, h1, _⟩ := scanUnsigned_field f rest hf
  rw [hfail] at h1
  cases h1

/-- Claim C7 fails as stated.  The string `1920x1080xabc` has a depth that is
not numeric and matches none of the three grammars, yet it is not rejected:
`parseStringConfig` returns 1 with the request `{1920, 1080, 32, 60.0}` and
the advisory for two defaulted fields, and the `set` invocation goes on to
search the mode list, applies the mode and exits with status 0. -/
theorem non_numeric_depth_is_accepted :
    matchesNoGrammar ("1920x1080xabc").toList ∧
    parseStringConfig ("1920x1080xabc").toList (config.mk 0 0 0 Double.nan) =
      (1, config.mk 1920 1080 32 Double.sixty,
        [Event.stdout ("Warning: no pixel-depth and no refresh rate specified, assuming 32 bit and 60.0Hz.\n").toList]) ∧
    main (ioGraphicsTypes []) (exampleOS [exampleMode Double.sixty] 0 0 0)
        [("screenresolution").toList, ("set").toList, ("1920x1080xabc").toList] =
      some (0,
        [Event.stdout ("Warning: no pixel-depth and no refresh rate specified, assuming 32 bit and 60.0Hz.\n").toList,
         Event.stdout ("Set mode on display 0 to 1920x1080x32@60\n").toList,
         Event.beginDisplayConfiguration, Event.configureDisplayWithDisplayMode 7 0,
         Event.completeDisplayConfiguration]) := by
  have h0 : scanUnsigned ("1920x1080xabc").toList = Conv.ok 1920 ("x1080xabc").toList := by decide
  have h1 : scanUnsigned ("1080xabc").toList = Conv.ok 1080 ("xabc").toList := by decide
  have h2 : ∀ t : List Char, scanUnsigned ('a' :: t) = Conv.matchFailure := by
    intro t
    simp [scanUnsigned, skipSpaces, isspace, takeSign, spanClass, isdigit]
  -- the width is `1920`, so what follows the first separator is `1080xabc`
  have first : ∀ f1 rest, isUnsignedField f1 → ("1920x1080xabc").toList = f1 ++ 'x' :: rest →
      rest = ("1080xabc").toList := by
    intro f1 rest hf hs
    have := scanUnsigned_field_rest f1 ('x' :: rest) _ 1920 _ hf hs (stopsAt_x rest) h0
    simpa using this.symm
  -- the height is `1080`, so what follows the second separator is `abc`
  have second : ∀ f2 rest, isUnsignedField f2 → ("1080xabc").toList = f2 ++ 'x' :: rest →
      rest = ("abc").toList := by
    intro f2 rest hf hs
    have := scanUnsigned_field_rest f2 ('x' :: rest) _ 1080 _ hf hs (stopsAt_x rest) h1
    simpa using this.symm
  refine ⟨⟨?_, ?_, ?_⟩, by decide, by decide⟩
  · rintro ⟨f1, f2, f3, t, hf1, hf2, hf3, _, hs⟩
    have e1 := first f1 _ hf1 hs
    have e2 := second f2 _ hf2 e1.symm
    have hfail : scanUnsigned (f3 ++ '@' :: t) = Conv.matchFailure := by
      rw [e2]
      exact h2 _
    exact scanUnsigned_field_ok f3 _ hf3 hfail
  · rintro ⟨f1, f2, f3, hf1, hf2, hf3, hs⟩
    have e1 := first f1 _ hf1 hs
    have e2 := second f2 _ hf2 e1.symm
    have hfail : scanUnsigned (f3 ++ []) = Conv.matchFailure := by
      rw [List.append_nil, e2]
      exact h2 _
    exact scanUnsigned_field_ok f3 _ hf3 hfail
  · rintro ⟨f1, f2, hf1, hf2, hs⟩
    have e1 := first f1 _ hf1 hs
    have := scanUnsigned_field_rest f2 [] (f2 ++ []) 1080 ("xabc").toList hf2 rfl trivial
      (by rw [List.append_nil, e1]; exact h1)
    cases this

/-- Claim C7, amended.  A string that does not start with a width field, an
`x` and a height field, as `%lu` reads them, matches none of the three
grammars and is rejected: `parseStringConfig` returns 0, leaves `*out` as it
was, and writes the error message; the `set` invocation exits with status 1,
its trace holding nothing but a message on the error stream.  A string that
does start so is accepted, whatever follows the height. -/
theorem parseStringConfig_rejects (s : List Char) (out : config) :
    (¬ startsWithWxH s →
      matchesNoGrammar s ∧
      parseStringConfig s out =
        (0, out, [Event.stderr (("Error: the mode \x27").toList ++ s ++
          ("\x27 couldn\x27t be parsed.\n").toList)]) ∧
      ∀ (hdr : Headers) (os : OS) (prog : List Char),
        ∃ msg, main hdr os [prog, ("set").toList, s] = some (1, [Event.stderr msg])) ∧
    (startsWithWxH s → (parseStringConfig s out).1 = 1) := by
  refine ⟨fun h => ?_, parseStringConfig_accepts s out⟩
  obtain ⟨h4, h3, h2⟩ := not_startsWithWxH_counts s h
  have key : ∀ o : config, parseStringConfig s o =
      (0, o, [Event.stderr (("Error: the mode \x27").toList ++ s ++
        ("\x27 couldn\x27t be parsed.\n").toList)]) := by
    intro o
    simp only [parseStringConfig, ne_eq, h4, h3, h2, not_false_eq_true, if_true]
  refine ⟨⟨fun hm => h (startsWithWxH_of_grammar s (Or.inl hm)),
    fun hm => h (startsWithWxH_of_grammar s (Or.inr (Or.inl hm))),
    fun hm => h (startsWithWxH_of_grammar s (Or.inr (Or.inr hm)))⟩, key out, ?_⟩
  intro hdr os prog
  by_cases c1 : os.countError = 0
  swap
  · exact ⟨_, by simp [main, c1]; rfl⟩
  by_cases c2 : os.mallocNull = false
  swap
  · exact ⟨_, by simp [main, c1, c2]; rfl⟩
  by_cases c3 : os.listError = 0
  swap
  · exact ⟨_, by simp [main, c1, c2, c3]; rfl⟩
  rw [main_set hdr os prog s c1 c2 c3, key]
  exact ⟨_, by simp; rfl⟩

/-- Witness for claim C7, amended: the string `bogus` is rejected, and the
string `1920x1080xabc`, which starts with `1920x1080`, is accepted. -/
theorem parseStringConfig_rejects_witness :
    (matchesNoGrammar ("bogus").toList ∧
      parseStringConfig ("bogus").toList (config.mk 1 2 3 Double.sixty) =
        (0, config.mk 1 2 3 Double.sixty,
          [Event.stderr ("Error: the mode \x27bogus\x27 couldn\x27t be parsed.\n").toList]) ∧
      ∀ (hdr : Headers) (os : OS) (prog : List Char),
        ∃ msg, main hdr os [prog, ("set").toList, ("bogus").toList] =
          some (1, [Event.stderr msg])) ∧
    (parseStringConfig ("1920x1080xabc").toList (config.mk 1 2 3 Double.sixty)).1 = 1 :=
  ⟨(parseStringConfig_rejects ("bogus").toList (config.mk 1 2 3 Double.sixty)).1
      (not_startsWithWxH_of_head 'b' ("ogus").toList (by decide) (by decide) (by decide)
        (by decide)),
    (parseStringConfig_rejects ("1920x1080xabc").toList (config.mk 1 2 3 Double.sixty)).2
      ⟨("1920").toList, ("1080").toList, ("xabc").toList,
        ⟨[], [], ("1920").toList, rfl, by simp, Or.inl rfl, by decide, by decide⟩,
        ⟨[], [], ("1080").toList, rfl, by simp, Or.inl rfl, by decide, by decide⟩, rfl⟩⟩

/-! ## Lemmas: binary64 values -/

namespace Double

theorem ilog2Aux_spec : ∀ (fuel n : Nat), 0 < n → n ≤ fuel →
    2 ^ ilog2Aux fuel n ≤ n ∧ n < 2 ^ (ilog2Aux fuel n + 1) := by
  intro fuel
  induction fuel with
  | zero => intro n h0 h; omega
  | succ fuel ih =>
    intro n h0 h
    by_cases h2 : 2 ≤ n
    · have hhalf := ih (n / 2) (by omega) (by omega)
      simp only [ilog2Aux, h2, if_true]
      obtain ⟨hl, hu⟩ := hhalf
      constructor
      · rw [pow_succ]
        omega
      · rw [pow_succ]
        omega
    · have : n = 1 := by omega
      subst this
      simp [ilog2Aux]

theorem ilog2_spec (n : Nat) (h : 0 < n) : 2 ^ ilog2 n ≤ n ∧ n < 2 ^ (ilog2 n + 1) :=
  ilog2Aux_spec n n h (le_refl n)

theorem two_zpow_toNat (z : Int) (h : 0 ≤ z) : (2 : ℚ) ^ z = (2 : ℚ) ^ z.toNat := by
  conv_lhs => rw [← Int.toNat_of_nonneg h]
  exact zpow_natCast 2 z.toNat

theorem two_zpow_neg_toNat (z : Int) (h : z ≤ 0) : (2 : ℚ) ^ z * (2 : ℚ) ^ (-z).toNat = 1 := by
  obtain ⟨k, rfl⟩ : ∃ k : Nat, z = -(k : Int) := ⟨(-z).toNat, by omega⟩
  have hk : (- -(k : Int)).toNat = k := by simp
  rw [hk, zpow_neg, zpow_natCast]
  exact inv_mul_cancel₀ (by positivity)

theorem pow2Le_iff (l : Int) (n d : Nat) :
    pow2Le l n d = true ↔ (d : ℚ) * (2 : ℚ) ^ l ≤ (n : ℚ) := by
  unfold pow2Le
  by_cases h : 0 ≤ l
  · simp only [h, if_true, decide_eq_true_eq]
    rw [two_zpow_toNat l h]
    constructor
    · intro hle
      exact_mod_cast hle
    · intro hle
      exact_mod_cast hle
  · simp only [h, if_false, decide_eq_true_eq]
    have hl : l ≤ 0 := by omega
    have hinv := two_zpow_neg_toNat l hl
    have hpos : (0 : ℚ) < (2 : ℚ) ^ (-l).toNat := by positivity
    constructor
    · intro hle
      have h1 : (d : ℚ) ≤ (n : ℚ) * (2 : ℚ) ^ (-l).toNat := by exact_mod_cast hle
      have h2 : (d : ℚ) * (2 : ℚ) ^ l * (2 : ℚ) ^ (-l).toNat ≤ (n : ℚ) * (2 : ℚ) ^ (-l).toNat := by
        rw [mul_assoc, hinv, mul_one]
        exact h1
      exact le_of_mul_le_mul_right h2 hpos
    · intro hle
      have h2 : (d : ℚ) * (2 : ℚ) ^ l * (2 : ℚ) ^ (-l).toNat ≤ (n : ℚ) * (2 : ℚ) ^ (-l).toNat :=
        mul_le_mul_of_nonneg_right hle (le_of_lt hpos)
      rw [mul_assoc, hinv, mul_one] at h2
      exact_mod_cast h2

/-- The exponent `binade n d` is not above the binary logarithm of `n / d`. -/
theorem binade_le (n d : Nat) (hn : 0 < n) (hd : 0 < d) :
    (d : ℚ) * (2 : ℚ) ^ (binade n d) ≤ (n : ℚ) := by
  unfold binade
  by_cases h : pow2Le ((ilog2 n : Int) - (ilog2 d : Int)) n d = true
  · rw [if_pos h]
    exact (pow2Le_iff _ n d).mp h
  · rw [if_neg h]
    have hnl := (ilog2_spec n hn).1
    have hdu := (ilog2_spec d hd).2
    have e1 : (2 : ℚ) ^ ((ilog2 n : Int) - (ilog2 d : Int) - 1) =
        (2 : ℚ) ^ (ilog2 n) / (2 : ℚ) ^ (ilog2 d + 1) := by
      rw [show ((ilog2 n : Int) - (ilog2 d : Int) - 1) = (ilog2 n : Int) - ((ilog2 d + 1 : Nat) : Int)
        by push_cast; ring]
      rw [zpow_sub₀ (by norm_num : (2 : ℚ) ≠ 0), zpow_natCast, zpow_natCast]
    rw [e1]
    have hn' : (2 : ℚ) ^ (ilog2 n) ≤ (n : ℚ) := by exact_mod_cast hnl
    have hd' : (d : ℚ) ≤ (2 : ℚ) ^ (ilog2 d + 1) := by exact_mod_cast (le_of_lt hdu)
    have hpos : (0 : ℚ) < (2 : ℚ) ^ (ilog2 d + 1) := by positivity
    have hpn : (0 : ℚ) ≤ (2 : ℚ) ^ (ilog2 n) := by positivity
    calc (d : ℚ) * ((2 : ℚ) ^ (ilog2 n) / (2 : ℚ) ^ (ilog2 d + 1))
        ≤ (2 : ℚ) ^ (ilog2 d + 1) * ((2 : ℚ) ^ (ilog2 n) / (2 : ℚ) ^ (ilog2 d + 1)) :=
          mul_le_mul_of_nonneg_right hd' (div_nonneg hpn (le_of_lt hpos))
      _ = (2 : ℚ) ^ (ilog2 n) := by field_simp
      _ ≤ (n : ℚ) := hn'

theorem roundHalfEven_exact (k d : Nat) (hd : 0 < d) : roundHalfEven (k * d) d = k := by
  have h1 : k * d % d = 0 := Nat.mul_mod_left k d
  have h2 : k * d / d = k := Nat.mul_div_cancel k hd
  simp [roundHalfEven, h1, h2, hd]

/-- `ofQuotient` is exact on a quotient that is a binary64 value `m * 2^e`. -/
theorem ofQuotient_value (neg : Bool) (n d m : Nat) (e : Int) (hd : 0 < d)
    (hm : m < 2 ^ 53) (he1 : -1074 ≤ e) (he2 : e ≤ 971)
    (hval : (n : ℚ) = (d : ℚ) * ((m : ℚ) * (2 : ℚ) ^ e)) :
    (ofQuotient neg n d).value = some ((if neg then -1 else 1) * (m : ℚ) * (2 : ℚ) ^ e) := by
  have h2e : (0 : ℚ) < (2 : ℚ) ^ e := zpow_pos (by norm_num) e
  have hdq : (0 : ℚ) < (d : ℚ) := by exact_mod_cast hd
  by_cases hn : n = 0
  · subst hn
    have hm0 : (m : ℚ) = 0 := by
      have : (d : ℚ) * ((m : ℚ) * (2 : ℚ) ^ e) = 0 := by exact_mod_cast hval.symm
      rcases mul_eq_zero.mp this with h | h
      · exact absurd h (ne_of_gt hdq)
      · rcases mul_eq_zero.mp h with h | h
        · exact h
        · exact absurd h (ne_of_gt h2e)
    simp [ofQuotient, value, hm0]
  · have hnpos : 0 < n := Nat.pos_of_ne_zero hn
    have hb := binade_le n d hnpos hd
    -- the binade is below `53 + e`
    have hblt : binade n d < 53 + e := by
      have h1 : (2 : ℚ) ^ (binade n d) ≤ (m : ℚ) * (2 : ℚ) ^ e := by
        rw [hval] at hb
        exact le_of_mul_le_mul_left hb hdq
      have h2 : (m : ℚ) * (2 : ℚ) ^ e < (2 : ℚ) ^ (53 + e) := by
        rw [zpow_add₀ (by norm_num : (2 : ℚ) ≠ 0)]
        have : (m : ℚ) < (2 : ℚ) ^ (53 : Int) := by
          have h53 : (2 : ℚ) ^ (53 : Int) = ((2 ^ 53 : Nat) : ℚ) := by norm_num
          rw [h53]
          exact_mod_cast hm
        exact mul_lt_mul_of_pos_right this h2e
      exact (zpow_lt_zpow_iff_right₀ (by norm_num : (1 : ℚ) < 2)).mp (lt_of_le_of_lt h1 h2)
    have hq : max (binade n d - 52) (-1074) ≤ e := max_le (by omega) he1
    generalize hqdef : max (binade n d - 52) (-1074) = q at hq
    obtain ⟨k, hk⟩ : ∃ k : Nat, e = q + (k : Int) := ⟨(e - q).toNat, by omega⟩
    have hpow : (2 : ℚ) ^ e = (2 : ℚ) ^ q * (2 : ℚ) ^ k := by
      rw [hk, zpow_add₀ (by norm_num : (2 : ℚ) ≠ 0), zpow_natCast]
    have hround : (if 0 ≤ q then roundHalfEven n (d * 2 ^ q.toNat)
        else roundHalfEven (n * 2 ^ (-q).toNat) d) = m * 2 ^ k := by
      by_cases hq0 : 0 ≤ q
      · rw [if_pos hq0]
        have hnat : n = m * 2 ^ k * (d * 2 ^ q.toNat) := by
          have : (n : ℚ) = ((m * 2 ^ k * (d * 2 ^ q.toNat) : Nat) : ℚ) := by
            push_cast
            rw [hval, hpow, two_zpow_toNat q hq0]
            ring
          exact_mod_cast this
        rw [hnat]
        exact roundHalfEven_exact _ _ (by positivity)
      · rw [if_neg hq0]
        have hinv := two_zpow_neg_toNat q (by omega)
        have hnat : n * 2 ^ (-q).toNat = m * 2 ^ k * d := by
          have : ((n * 2 ^ (-q).toNat : Nat) : ℚ) = ((m * 2 ^ k * d : Nat) : ℚ) := by
            push_cast
            rw [hval, hpow]
            calc (d : ℚ) * ((m : ℚ) * ((2 : ℚ) ^ q * (2 : ℚ) ^ k)) * (2 : ℚ) ^ (-q).toNat
                = (d : ℚ) * (m : ℚ) * (2 : ℚ) ^ k * ((2 : ℚ) ^ q * (2 : ℚ) ^ (-q).toNat) := by ring
              _ = (m : ℚ) * (2 : ℚ) ^ k * (d : ℚ) := by rw [hinv]; ring
          exact_mod_cast this
        rw [hnat]
        exact roundHalfEven_exact _ _ hd
    have hnoover : (decide (971 < q) || (q == 971 && decide (2 ^ 53 ≤ m * 2 ^ k))) = false := by
      have h1 : ¬ (971 < q) := by omega
      by_cases h971 : q = 971
      · have hk0 : k = 0 := by omega
        subst hk0
        have hlt : ¬ (2 ^ 53 ≤ m * 2 ^ 0) := by
          rw [pow_zero, mul_one]
          omega
        simp only [h1, decide_False, Bool.false_or, hlt, Bool.and_false]
      · simp [h1, h971]
    simp only [ofQuotient, hn, if_false, hqdef, hround, hnoover, Bool.false_eq_true, value]
    rw [hpow]
    push_cast
    congr 1
    ring

end Double

/-! ## Lemmas: comparison of doubles and conversion of decimal numerals -/

namespace Double

theorem sign_ne_zero (neg : Bool) : ((if neg then -1 else 1 : ℚ)) ≠ 0 := by
  cases neg <;> norm_num

/-- On finite doubles `==` is equality of the exact values. -/
theorem ceq_finite_iff (n1 : Bool) (m1 : Nat) (e1 : Int) (n2 : Bool) (m2 : Nat) (e2 : Int) :
    ceq (finite n1 m1 e1) (finite n2 m2 e2) = true ↔
      value (finite n1 m1 e1) = value (finite n2 m2 e2) := by
  have hp1 : (0 : ℚ) < (2 : ℚ) ^ e1 := zpow_pos (by norm_num) e1
  have hp2 : (0 : ℚ) < (2 : ℚ) ^ e2 := zpow_pos (by norm_num) e2
  obtain ⟨a, ha⟩ : ∃ a : Nat, e1 = min e1 e2 + (a : Int) := ⟨(e1 - min e1 e2).toNat, by omega⟩
  obtain ⟨b, hb⟩ : ∃ b : Nat, e2 = min e1 e2 + (b : Int) := ⟨(e2 - min e1 e2).toNat, by omega⟩
  have hta : (e1 - min e1 e2).toNat = a := by omega
  have htb : (e2 - min e1 e2).toNat = b := by omega
  have hpc : (0 : ℚ) < (2 : ℚ) ^ (min e1 e2) := zpow_pos (by norm_num) _
  have hpa : (2 : ℚ) ^ e1 = (2 : ℚ) ^ (min e1 e2) * (2 : ℚ) ^ a := by
    conv_lhs => rw [ha]
    rw [zpow_add₀ (by norm_num : (2 : ℚ) ≠ 0), zpow_natCast]
  have hpb : (2 : ℚ) ^ e2 = (2 : ℚ) ^ (min e1 e2) * (2 : ℚ) ^ b := by
    conv_lhs => rw [hb]
    rw [zpow_add₀ (by norm_num : (2 : ℚ) ≠ 0), zpow_natCast]
  -- the natural-number test is the equality of the magnitudes
  have hmag : (m1 * 2 ^ a = m2 * 2 ^ b) ↔ ((m1 : ℚ) * (2 : ℚ) ^ e1 = (m2 : ℚ) * (2 : ℚ) ^ e2) := by
    rw [hpa, hpb]
    constructor
    · intro h
      have : (m1 : ℚ) * (2 : ℚ) ^ a = (m2 : ℚ) * (2 : ℚ) ^ b := by exact_mod_cast h
      calc (m1 : ℚ) * ((2 : ℚ) ^ (min e1 e2) * (2 : ℚ) ^ a)
          = (2 : ℚ) ^ (min e1 e2) * ((m1 : ℚ) * (2 : ℚ) ^ a) := by ring
        _ = (2 : ℚ) ^ (min e1 e2) * ((m2 : ℚ) * (2 : ℚ) ^ b) := by rw [this]
        _ = (m2 : ℚ) * ((2 : ℚ) ^ (min e1 e2) * (2 : ℚ) ^ b) := by ring
    · intro h
      have h' : (2 : ℚ) ^ (min e1 e2) * ((m1 : ℚ) * (2 : ℚ) ^ a) =
          (2 : ℚ) ^ (min e1 e2) * ((m2 : ℚ) * (2 : ℚ) ^ b) := by
        calc (2 : ℚ) ^ (min e1 e2) * ((m1 : ℚ) * (2 : ℚ) ^ a)
            = (m1 : ℚ) * ((2 : ℚ) ^ (min e1 e2) * (2 : ℚ) ^ a) := by ring
          _ = (m2 : ℚ) * ((2 : ℚ) ^ (min e1 e2) * (2 : ℚ) ^ b) := h
          _ = (2 : ℚ) ^ (min e1 e2) * ((m2 : ℚ) * (2 : ℚ) ^ b) := by ring
      have := mul_left_cancel₀ (ne_of_gt hpc) h'
      exact_mod_cast this
  simp only [ceq, value, hta, htb, Option.some.injEq, Bool.or_eq_true, Bool.and_eq_true,
    beq_iff_eq]
  constructor
  · rintro (⟨h1, h2⟩ | ⟨hs, hm⟩)
    · subst h1 h2
      simp
    · subst hs
      rw [mul_assoc, mul_assoc, hmag.mp hm]
  · intro h
    by_cases hz1 : m1 = 0
    · left
      refine ⟨hz1, ?_⟩
      subst hz1
      simp only [Nat.cast_zero, mul_zero, zero_mul] at h
      have h3 : ((if n2 = true then -1 else 1 : ℚ)) * ((m2 : ℚ) * (2 : ℚ) ^ e2) = 0 := by
        rw [← mul_assoc]
        exact h.symm
      rcases mul_eq_zero.mp h3 with h4 | h4
      · exact absurd h4 (sign_ne_zero n2)
      · rcases mul_eq_zero.mp h4 with h5 | h5
        · exact_mod_cast h5
        · exact absurd h5 (ne_of_gt hp2)
    · right
      have hm1 : (0 : ℚ) < (m1 : ℚ) * (2 : ℚ) ^ e1 := by
        have : (0 : ℚ) < (m1 : ℚ) := by exact_mod_cast Nat.pos_of_ne_zero hz1
        positivity
      have hm2 : (0 : ℚ) ≤ (m2 : ℚ) * (2 : ℚ) ^ e2 := by positivity
      rw [mul_assoc, mul_assoc] at h
      cases n1 <;> cases n2
      · simp only [Bool.false_eq_true, if_false, one_mul] at h
        exact ⟨rfl, hmag.mpr h⟩
      · simp only [Bool.false_eq_true, if_false, if_true, one_mul] at h
        linarith
      · simp only [Bool.false_eq_true, if_false, if_true, one_mul] at h
        linarith
      · simp only [if_true, neg_mul, one_mul, neg_inj] at h
        exact ⟨rfl, hmag.mpr h⟩

theorem finite_of_value (y : Double) (v : ℚ) (h : y.value = some v) :
    ∃ n m e, y = finite n m e := by
  cases y with
  | finite n m e => exact ⟨n, m, e, rfl⟩
  | inf s => simp [value] at h
  | nan => simp [value] at h

/-- A double that compares equal to a finite one is finite. -/
theorem finite_of_ceq_finite (x : Double) (n : Bool) (m : Nat) (e : Int)
    (h : ceq x (finite n m e) = true) : ∃ n1 m1 e1, x = finite n1 m1 e1 := by
  cases x with
  | finite n1 m1 e1 => exact ⟨n1, m1, e1, rfl⟩
  | inf s => simp [ceq] at h
  | nan => simp [ceq] at h

/-- The conversion of the decimal numeral `c / 10^k` is exact when that value
is the binary64 value `m * 2^e`. -/
theorem ofScaled_decimal_value (neg : Bool) (c k m : Nat) (e : Int)
    (hm : m < 2 ^ 53) (he1 : -1074 ≤ e) (he2 : e ≤ 971)
    (hval : (c : ℚ) = (10 : ℚ) ^ k * ((m : ℚ) * (2 : ℚ) ^ e)) :
    (ofScaled neg c 10 (0 - (k : Int))).value =
      some ((if neg then -1 else 1) * (m : ℚ) * (2 : ℚ) ^ e) := by
  unfold ofScaled
  by_cases hk : k = 0
  · subst hk
    simp only [Nat.cast_zero, sub_zero, le_refl, if_true, Int.toNat_zero, pow_zero, mul_one]
    apply ofQuotient_value neg c 1 m e (by decide) hm he1 he2
    simpa using hval
  · have hneg : ¬ (0 ≤ (0 : Int) - (k : Int)) := by omega
    have htn : (-((0 : Int) - (k : Int))).toNat = k := by omega
    rw [if_neg hneg, htn]
    apply ofQuotient_value neg c (10 ^ k) m e (by positivity) hm he1 he2
    push_cast
    exact hval

end Double

/-! ## Lemmas: the conversion to binary64 rounds to nearest, ties to even -/

namespace Double

/-- `roundHalfEven n d` is within one half of `n / d`, and is even when it is
exactly one half away. -/
theorem roundHalfEven_spec (n d : Nat) (hd : 0 < d) :
    |((roundHalfEven n d : Nat) : ℚ) - (n : ℚ) / d| ≤ 1 / 2 ∧
    (|((roundHalfEven n d : Nat) : ℚ) - (n : ℚ) / d| = 1 / 2 → roundHalfEven n d % 2 = 0) := by
  have hdq : (0 : ℚ) < (d : ℚ) := by exact_mod_cast hd
  have hsplit : (n : ℚ) / d = ((n / d : Nat) : ℚ) + ((n % d : Nat) : ℚ) / d := by
    have h := Nat.div_add_mod n d
    have hq : (n : ℚ) = (d : ℚ) * ((n / d : Nat) : ℚ) + ((n % d : Nat) : ℚ) := by
      exact_mod_cast h.symm
    field_simp
    linarith
  have hr : n % d < d := Nat.mod_lt n hd
  have hx0 : (0 : ℚ) ≤ ((n % d : Nat) : ℚ) / d := by positivity
  unfold roundHalfEven
  by_cases h1 : 2 * (n % d) < d
  · rw [if_pos h1, hsplit]
    have hx : ((n % d : Nat) : ℚ) / d < 1 / 2 := by
      rw [div_lt_iff₀ hdq]
      have : ((2 * (n % d) : Nat) : ℚ) < (d : ℚ) := by exact_mod_cast h1
      push_cast at this
      linarith
    have habs : |((n / d : Nat) : ℚ) - (((n / d : Nat) : ℚ) + ((n % d : Nat) : ℚ) / d)| =
        ((n % d : Nat) : ℚ) / d := by
      rw [show ((n / d : Nat) : ℚ) - (((n / d : Nat) : ℚ) + ((n % d : Nat) : ℚ) / d) =
        -(((n % d : Nat) : ℚ) / d) by ring, abs_neg, abs_of_nonneg hx0]
    rw [habs]
    exact ⟨le_of_lt hx, fun h => absurd h (ne_of_lt hx)⟩
  · rw [if_neg h1]
    by_cases h2 : d < 2 * (n % d)
    · rw [if_pos h2, hsplit]
      have hx : 1 / 2 < ((n % d : Nat) : ℚ) / d := by
        rw [lt_div_iff₀ hdq]
        have : (d : ℚ) < ((2 * (n % d) : Nat) : ℚ) := by exact_mod_cast h2
        push_cast at this
        linarith
      have hx1 : ((n % d : Nat) : ℚ) / d < 1 := by
        rw [div_lt_one hdq]
        exact_mod_cast hr
      have habs : |((n / d + 1 : Nat) : ℚ) - (((n / d : Nat) : ℚ) + ((n % d : Nat) : ℚ) / d)| =
          1 - ((n % d : Nat) : ℚ) / d := by
        rw [show ((n / d + 1 : Nat) : ℚ) - (((n / d : Nat) : ℚ) + ((n % d : Nat) : ℚ) / d) =
          1 - ((n % d : Nat) : ℚ) / d by push_cast; ring]
        exact abs_of_nonneg (by linarith)
      rw [habs]
      exact ⟨by linarith, fun h => absurd h (by linarith)⟩
    · rw [if_neg h2]
      have htie : ((n % d : Nat) : ℚ) / d = 1 / 2 := by
        have : 2 * (n % d) = d := by omega
        rw [div_eq_iff (ne_of_gt hdq)]
        have h3 : ((2 * (n % d) : Nat) : ℚ) = (d : ℚ) := by exact_mod_cast this
        push_cast at h3
        linarith
      by_cases h3 : (n / d) % 2 = 0
      · rw [if_pos h3, hsplit, htie]
        have : |((n / d : Nat) : ℚ) - (((n / d : Nat) : ℚ) + 1 / 2)| = 1 / 2 := by
          rw [show ((n / d : Nat) : ℚ) - (((n / d : Nat) : ℚ) + 1 / 2) = -(1 / 2) by ring,
            abs_neg]
          exact abs_of_nonneg (by norm_num)
        rw [this]
        exact ⟨le_refl _, fun _ => h3⟩
      · rw [if_neg h3, hsplit, htie]
        have : |((n / d + 1 : Nat) : ℚ) - (((n / d : Nat) : ℚ) + 1 / 2)| = 1 / 2 := by
          rw [show ((n / d + 1 : Nat) : ℚ) - (((n / d : Nat) : ℚ) + 1 / 2) = 1 / 2 by
            push_cast; ring]
          exact abs_of_nonneg (by norm_num)
        rw [this]
        exact ⟨le_refl _, fun _ => by omega⟩

/-- An integer within one half of `t` is at least as near to `t` as any other
integer. -/
theorem nearest_of_half (m k : Nat) (t : ℚ) (h : |(m : ℚ) - t| ≤ 1 / 2) :
    |(m : ℚ) - t| ≤ |(k : ℚ) - t| := by
  by_cases hk : k = m
  · rw [hk]
  · have h1 : (1 : ℚ) ≤ |(k : ℚ) - (m : ℚ)| := by
      rcases Nat.lt_or_gt_of_ne hk with h | h
      · have : (k : ℚ) + 1 ≤ (m : ℚ) := by exact_mod_cast h
        rw [abs_of_nonpos (by linarith)]
        linarith
      · have : (m : ℚ) + 1 ≤ (k : ℚ) := by exact_mod_cast h
        rw [abs_of_nonneg (by linarith)]
        linarith
    have h2 : |(k : ℚ) - (m : ℚ)| ≤ |(k : ℚ) - t| + |t - (m : ℚ)| := abs_sub_le _ _ _
    rw [abs_sub_comm t (m : ℚ)] at h2
    linarith

/-- The exponent `binade n d` is above the binary logarithm of `n / d` by
less than one. -/
theorem binade_lt (n d : Nat) (hn : 0 < n) (hd : 0 < d) :
    (n : ℚ) < (d : ℚ) * (2 : ℚ) ^ (binade n d + 1) := by
  unfold binade
  by_cases h : pow2Le ((ilog2 n : Int) - (ilog2 d : Int)) n d = true
  · rw [if_pos h]
    have hnu := (ilog2_spec n hn).2
    have hdl := (ilog2_spec d hd).1
    have e1 : (2 : ℚ) ^ ((ilog2 n : Int) - (ilog2 d : Int) + 1) =
        (2 : ℚ) ^ (ilog2 n + 1) / (2 : ℚ) ^ (ilog2 d) := by
      rw [show ((ilog2 n : Int) - (ilog2 d : Int) + 1) =
        ((ilog2 n + 1 : Nat) : Int) - ((ilog2 d : Nat) : Int) by push_cast; ring]
      rw [zpow_sub₀ (by norm_num : (2 : ℚ) ≠ 0), zpow_natCast, zpow_natCast]
    rw [e1]
    have hn' : (n : ℚ) < (2 : ℚ) ^ (ilog2 n + 1) := by exact_mod_cast hnu
    have hd' : (2 : ℚ) ^ (ilog2 d) ≤ (d : ℚ) := by exact_mod_cast hdl
    have hpos : (0 : ℚ) < (2 : ℚ) ^ (ilog2 d) := by positivity
    have hpn : (0 : ℚ) < (2 : ℚ) ^ (ilog2 n + 1) / (2 : ℚ) ^ (ilog2 d) := by positivity
    calc (n : ℚ) < (2 : ℚ) ^ (ilog2 n + 1) := hn'
      _ = (2 : ℚ) ^ (ilog2 d) * ((2 : ℚ) ^ (ilog2 n + 1) / (2 : ℚ) ^ (ilog2 d)) := by field_simp
      _ ≤ (d : ℚ) * ((2 : ℚ) ^ (ilog2 n + 1) / (2 : ℚ) ^ (ilog2 d)) :=
          mul_le_mul_of_nonneg_right hd' (le_of_lt hpn)
  · rw [if_neg h]
    have h' : ¬ ((d : ℚ) * (2 : ℚ) ^ ((ilog2 n : Int) - (ilog2 d : Int)) ≤ (n : ℚ)) :=
      fun hle => h ((pow2Le_iff _ n d).mpr hle)
    rw [show ((ilog2 n : Int) - (ilog2 d : Int) - 1 + 1) = (ilog2 n : Int) - (ilog2 d : Int) by ring]
    exact lt_of_not_le h'

/-- The significand `ofQuotient` computes at the exponent `q` is the integer
nearest to `(n / d) / 2^q`, ties to even. -/
theorem roundScaled_spec (n d : Nat) (q : Int) (hd : 0 < d) :
    |(((if 0 ≤ q then roundHalfEven n (d * 2 ^ q.toNat)
        else roundHalfEven (n * 2 ^ (-q).toNat) d : Nat) : ℚ)) - (n : ℚ) / d / (2 : ℚ) ^ q| ≤ 1 / 2 ∧
    (|(((if 0 ≤ q then roundHalfEven n (d * 2 ^ q.toNat)
        else roundHalfEven (n * 2 ^ (-q).toNat) d : Nat) : ℚ)) - (n : ℚ) / d / (2 : ℚ) ^ q| = 1 / 2 →
      (if 0 ≤ q then roundHalfEven n (d * 2 ^ q.toNat)
        else roundHalfEven (n * 2 ^ (-q).toNat) d) % 2 = 0) := by
  have hdq : (0 : ℚ) < (d : ℚ) := by exact_mod_cast hd
  have h2q : (0 : ℚ) < (2 : ℚ) ^ q := zpow_pos (by norm_num) q
  by_cases hq : 0 ≤ q
  · simp only [hq, if_true]
    have e : (n : ℚ) / d / (2 : ℚ) ^ q = (n : ℚ) / ((d * 2 ^ q.toNat : Nat) : ℚ) := by
      rw [two_zpow_toNat q hq]
      push_cast
      rw [div_div]
    rw [e]
    exact roundHalfEven_spec n (d * 2 ^ q.toNat) (by positivity)
  · simp only [hq, if_false]
    have hinv := two_zpow_neg_toNat q (by omega)
    have e : (n : ℚ) / d / (2 : ℚ) ^ q = ((n * 2 ^ (-q).toNat : Nat) : ℚ) / (d : ℚ) := by
      push_cast
      rw [div_div, div_eq_div_iff (by positivity) (ne_of_gt hdq)]
      calc (n : ℚ) * (d : ℚ) = (n : ℚ) * (d : ℚ) * ((2 : ℚ) ^ q * (2 : ℚ) ^ (-q).toNat) := by
            rw [hinv, mul_one]
        _ = (n : ℚ) * (2 : ℚ) ^ (-q).toNat * ((d : ℚ) * (2 : ℚ) ^ q) := by ring
    rw [e]
    exact roundHalfEven_spec (n * 2 ^ (-q).toNat) d hd

/-- What `ofQuotient` computes for a positive quotient: an exponent `q` taken
from the binade `b` of the quotient, and the significand nearest to the
quotient at that exponent. -/
theorem ofQuotient_cases (neg : Bool) (n d : Nat) (hn : 0 < n) (hd : 0 < d) :
    ∃ (b q : Int) (m : Nat), q = max (b - 52) (-1074) ∧
      (d : ℚ) * (2 : ℚ) ^ b ≤ (n : ℚ) ∧ (n : ℚ) < (d : ℚ) * (2 : ℚ) ^ (b + 1) ∧
      |(m : ℚ) - (n : ℚ) / d / (2 : ℚ) ^ q| ≤ 1 / 2 ∧
      (|(m : ℚ) - (n : ℚ) / d / (2 : ℚ) ^ q| = 1 / 2 → m % 2 = 0) ∧
      ofQuotient neg n d =
        if (decide (971 < q) || (q == 971 && decide (2 ^ 53 ≤ m))) = true then inf neg
        else finite neg m q := by
  have hspec := roundScaled_spec n d (max (binade n d - 52) (-1074)) hd
  refine ⟨binade n d, max (binade n d - 52) (-1074), _, rfl, binade_le n d hn hd,
    binade_lt n d hn hd, hspec.1, hspec.2, ?_⟩
  have hn0 : n ≠ 0 := Nat.pos_iff_ne_zero.mp hn
  simp only [ofQuotient, hn0, if_false]

end Double

namespace Double

theorem abs_scaled (m : Nat) (r : ℚ) (q : Int) :
    |(m : ℚ) * (2 : ℚ) ^ q - r| = |(m : ℚ) - r / (2 : ℚ) ^ q| * (2 : ℚ) ^ q := by
  have h2q : (0 : ℚ) < (2 : ℚ) ^ q := zpow_pos (by norm_num) q
  rw [show (m : ℚ) * (2 : ℚ) ^ q - r = ((m : ℚ) - r / (2 : ℚ) ^ q) * (2 : ℚ) ^ q by
    field_simp]
  rw [abs_mul, abs_of_pos h2q]

/-- Among the binary64 values, the one `ofQuotient` picks is nearest to the
quotient. -/
theorem nearest_of_cases (r : ℚ) (b q : Int) (m0 : Nat) (hr : 0 < r)
    (hq : q = max (b - 52) (-1074)) (hlo : (2 : ℚ) ^ b ≤ r)
    (hhalf : |(m0 : ℚ) - r / (2 : ℚ) ^ q| ≤ 1 / 2)
    (neg : Bool) (m : Nat) (e : Int) (hm : m < 2 ^ 53) (he : -1074 ≤ e) :
    |(m0 : ℚ) * (2 : ℚ) ^ q - r| ≤
      |(if neg then -1 else 1) * (m : ℚ) * (2 : ℚ) ^ e - r| := by
  have h2q : (0 : ℚ) < (2 : ℚ) ^ q := zpow_pos (by norm_num) q
  have h2e : (0 : ℚ) < (2 : ℚ) ^ e := zpow_pos (by norm_num) e
  have hw0 : (0 : ℚ) ≤ (m : ℚ) * (2 : ℚ) ^ e := by positivity
  -- a negative value is no nearer than its magnitude
  have hsign : |(m : ℚ) * (2 : ℚ) ^ e - r| ≤
      |(if neg then -1 else 1) * (m : ℚ) * (2 : ℚ) ^ e - r| := by
    cases neg with
    | false => simp
    | true =>
      simp only [if_true, neg_mul, one_mul]
      rw [show -((m : ℚ) * (2 : ℚ) ^ e) - r = -((m : ℚ) * (2 : ℚ) ^ e + r) by ring, abs_neg,
        abs_of_nonneg (by linarith : (0 : ℚ) ≤ (m : ℚ) * (2 : ℚ) ^ e + r)]
      rw [abs_le]
      constructor <;> linarith
  refine le_trans ?_ hsign
  rw [abs_scaled m0 r q]
  by_cases hqe : q ≤ e
  · -- the value is a multiple of `2^q`
    obtain ⟨k, hk⟩ : ∃ k : Nat, e = q + (k : Int) := ⟨(e - q).toNat, by omega⟩
    have hpow : (2 : ℚ) ^ e = (2 : ℚ) ^ k * (2 : ℚ) ^ q := by
      rw [hk, zpow_add₀ (by norm_num : (2 : ℚ) ≠ 0), zpow_natCast]
      ring
    have hmul : (m : ℚ) * (2 : ℚ) ^ e = ((m * 2 ^ k : Nat) : ℚ) * (2 : ℚ) ^ q := by
      rw [hpow]
      push_cast
      ring
    rw [hmul, abs_scaled (m * 2 ^ k) r q]
    exact mul_le_mul_of_nonneg_right (nearest_of_half m0 (m * 2 ^ k) _ hhalf) (le_of_lt h2q)
  · -- the value lies below the binade of `r`
    have hqb : q = b - 52 := by omega
    have hb : (2 : ℚ) ^ b = ((2 ^ 52 : Nat) : ℚ) * (2 : ℚ) ^ q := by
      have h52 : (2 : ℚ) ^ (52 : Int) = ((2 ^ 52 : Nat) : ℚ) := by norm_num
      rw [hqb, ← h52, ← zpow_add₀ (by norm_num : (2 : ℚ) ≠ 0)]
      congr 1
      ring
    have hwlt : (m : ℚ) * (2 : ℚ) ^ e < (2 : ℚ) ^ b := by
      have h1 : (m : ℚ) < (2 : ℚ) ^ (53 : Int) := by
        have h53 : (2 : ℚ) ^ (53 : Int) = ((2 ^ 53 : Nat) : ℚ) := by norm_num
        rw [h53]
        exact_mod_cast hm
      have h2 : (m : ℚ) * (2 : ℚ) ^ e < (2 : ℚ) ^ (53 : Int) * (2 : ℚ) ^ e :=
        mul_lt_mul_of_pos_right h1 h2e
      rw [← zpow_add₀ (by norm_num : (2 : ℚ) ≠ 0)] at h2
      have h3 : (2 : ℚ) ^ ((53 : Int) + e) ≤ (2 : ℚ) ^ b :=
        zpow_le_zpow_right₀ (by norm_num) (by omega)
      exact lt_of_lt_of_le h2 h3
    have hnear := nearest_of_half m0 (2 ^ 52) (r / (2 : ℚ) ^ q) hhalf
    have habs52 : |((2 ^ 52 : Nat) : ℚ) - r / (2 : ℚ) ^ q| * (2 : ℚ) ^ q = r - (2 : ℚ) ^ b := by
      rw [← abs_scaled (2 ^ 52) r q, ← hb, abs_of_nonpos (by linarith)]
      ring
    have hstep : |(m0 : ℚ) - r / (2 : ℚ) ^ q| * (2 : ℚ) ^ q ≤ r - (2 : ℚ) ^ b := by
      rw [← habs52]
      exact mul_le_mul_of_nonneg_right hnear (le_of_lt h2q)
    rw [abs_of_nonpos (by linarith : (m : ℚ) * (2 : ℚ) ^ e - r ≤ 0)]
    linarith

/-- The significand `ofQuotient` picks has at most 53 bits, or is `2^53`. -/
theorem significand_le (r : ℚ) (b q : Int) (m0 : Nat)
    (hq : q = max (b - 52) (-1074)) (hhi : r < (2 : ℚ) ^ (b + 1))
    (hhalf : |(m0 : ℚ) - r / (2 : ℚ) ^ q| ≤ 1 / 2) : m0 ≤ 2 ^ 53 := by
  have h2q : (0 : ℚ) < (2 : ℚ) ^ q := zpow_pos (by norm_num) q
  have ht : r / (2 : ℚ) ^ q < (2 : ℚ) ^ (53 : Int) := by
    rw [div_lt_iff₀ h2q, ← zpow_add₀ (by norm_num : (2 : ℚ) ≠ 0)]
    exact lt_of_lt_of_le hhi (zpow_le_zpow_right₀ (by norm_num) (by omega))
  have h53 : (2 : ℚ) ^ (53 : Int) = ((2 ^ 53 : Nat) : ℚ) := by norm_num
  rw [h53] at ht
  have hm : (m0 : ℚ) < ((2 ^ 53 : Nat) : ℚ) + 1 := by
    have := (abs_le.mp hhalf).2
    linarith
  have : m0 < 2 ^ 53 + 1 := by exact_mod_cast hm
  omega

theorem overflowThreshold_eq :
    overflowThreshold = ((2 : ℚ) ^ (53 : Int) - 1 / 2) * (2 : ℚ) ^ (971 : Int) := by
  unfold overflowThreshold
  norm_num

theorem overflowThreshold_bounds :
    (2 : ℚ) ^ (1023 : Int) ≤ overflowThreshold ∧ overflowThreshold < (2 : ℚ) ^ (1024 : Int) := by
  unfold overflowThreshold
  constructor <;> norm_num

/-- Below the overflow threshold the result of `ofQuotient` is finite. -/
theorem no_overflow_of_lt (r : ℚ) (b q : Int) (m0 : Nat)
    (hq : q = max (b - 52) (-1074)) (hlo : (2 : ℚ) ^ b ≤ r) (hlt : r < overflowThreshold)
    (hhalf : |(m0 : ℚ) - r / (2 : ℚ) ^ q| ≤ 1 / 2) :
    (decide (971 < q) || (q == 971 && decide (2 ^ 53 ≤ m0))) = false := by
  have hb : b < 1024 :=
    (zpow_lt_zpow_iff_right₀ (by norm_num : (1 : ℚ) < 2)).mp
      (lt_of_le_of_lt hlo (lt_trans hlt overflowThreshold_bounds.2))
  have hq971 : ¬ (971 < q) := by omega
  by_cases h971 : q = 971
  · have h2q : (0 : ℚ) < (2 : ℚ) ^ (971 : Int) := zpow_pos (by norm_num) _
    have ht : r / (2 : ℚ) ^ q < (2 : ℚ) ^ (53 : Int) - 1 / 2 := by
      rw [h971, div_lt_iff₀ h2q, ← overflowThreshold_eq]
      exact hlt
    have h53 : (2 : ℚ) ^ (53 : Int) = ((2 ^ 53 : Nat) : ℚ) := by norm_num
    rw [h53] at ht
    have hm : (m0 : ℚ) < ((2 ^ 53 : Nat) : ℚ) := by
      have := (abs_le.mp hhalf).2
      linarith
    have hm' : m0 < 2 ^ 53 := by exact_mod_cast hm
    have hnot : ¬ (2 ^ 53 ≤ m0) := by omega
    simp only [hq971, decide_False, Bool.false_or, hnot, Bool.and_false]
  · simp [hq971, h971]

/-- From the overflow threshold on the result of `ofQuotient` is infinite. -/
theorem overflow_of_le (r : ℚ) (b q : Int) (m0 : Nat)
    (hq : q = max (b - 52) (-1074)) (hhi : r < (2 : ℚ) ^ (b + 1)) (hle : overflowThreshold ≤ r)
    (hhalf : |(m0 : ℚ) - r / (2 : ℚ) ^ q| ≤ 1 / 2)
    (heven : |(m0 : ℚ) - r / (2 : ℚ) ^ q| = 1 / 2 → m0 % 2 = 0) :
    (decide (971 < q) || (q == 971 && decide (2 ^ 53 ≤ m0))) = true := by
  have hb : 1023 < b + 1 :=
    (zpow_lt_zpow_iff_right₀ (by norm_num : (1 : ℚ) < 2)).mp
      (lt_of_le_of_lt (le_trans overflowThreshold_bounds.1 hle) hhi)
  by_cases h971 : 971 < q
  · simp [h971]
  · have hq' : q = 971 := by omega
    have h2q : (0 : ℚ) < (2 : ℚ) ^ (971 : Int) := zpow_pos (by norm_num) _
    have ht : (2 : ℚ) ^ (53 : Int) - 1 / 2 ≤ r / (2 : ℚ) ^ q := by
      rw [hq', le_div_iff₀ h2q, ← overflowThreshold_eq]
      exact hle
    have h53 : (2 : ℚ) ^ (53 : Int) = ((2 ^ 53 : Nat) : ℚ) := by norm_num
    rw [h53] at ht
    have hm : ((2 ^ 53 : Nat) : ℚ) - 1 ≤ (m0 : ℚ) := by
      have := (abs_le.mp hhalf).1
      linarith
    have hm' : 2 ^ 53 ≤ m0 + 1 := by
      have : ((2 ^ 53 : Nat) : ℚ) ≤ ((m0 + 1 : Nat) : ℚ) := by
        push_cast
        push_cast at hm
        linarith
      exact_mod_cast this
    have hge : 2 ^ 53 ≤ m0 := by
      by_contra hlt
      have hm0 : m0 = 2 ^ 53 - 1 := by omega
      have htie : |(m0 : ℚ) - r / (2 : ℚ) ^ q| = 1 / 2 := by
        apply le_antisymm hhalf
        have hcast : (m0 : ℚ) = ((2 ^ 53 : Nat) : ℚ) - 1 := by
          rw [hm0]
          norm_num
        rw [abs_of_nonpos (by linarith)]
        linarith
      have := heven htie
      rw [hm0] at this
      norm_num at this
    subst hq'
    simp only [hge, decide_True, Bool.and_true, beq_self_eq_true, Bool.or_true]

end Double

namespace Double

theorem nearest_of_lt_half (m k : Nat) (t : ℚ) (h : |(m : ℚ) - t| < 1 / 2) (hk : k ≠ m) :
    |(m : ℚ) - t| < |(k : ℚ) - t| := by
  have h1 : (1 : ℚ) ≤ |(k : ℚ) - (m : ℚ)| := by
    rcases Nat.lt_or_gt_of_ne hk with h | h
    · have : (k : ℚ) + 1 ≤ (m : ℚ) := by exact_mod_cast h
      rw [abs_of_nonpos (by linarith)]
      linarith
    · have : (m : ℚ) + 1 ≤ (k : ℚ) := by exact_mod_cast h
      rw [abs_of_nonneg (by linarith)]
      linarith
  have h2 : |(k : ℚ) - (m : ℚ)| ≤ |(k : ℚ) - t| + |t - (m : ℚ)| := abs_sub_le _ _ _
  rw [abs_sub_comm t (m : ℚ)] at h2
  linarith

/-- A binary64 value other than the one `ofQuotient` picks is as near to the
quotient only in a tie: the quotient lies half-way between two significands. -/
theorem tie_of_equidistant (r : ℚ) (b q : Int) (m0 : Nat) (hr : 0 < r)
    (hq : q = max (b - 52) (-1074)) (hlo : (2 : ℚ) ^ b ≤ r)
    (hhalf : |(m0 : ℚ) - r / (2 : ℚ) ^ q| ≤ 1 / 2)
    (neg : Bool) (m : Nat) (e : Int) (hm : m < 2 ^ 53) (he : -1074 ≤ e)
    (hne : (if neg then -1 else 1) * (m : ℚ) * (2 : ℚ) ^ e ≠ (m0 : ℚ) * (2 : ℚ) ^ q)
    (heq : |(if neg then -1 else 1) * (m : ℚ) * (2 : ℚ) ^ e - r| =
      |(m0 : ℚ) * (2 : ℚ) ^ q - r|) :
    |(m0 : ℚ) - r / (2 : ℚ) ^ q| = 1 / 2 := by
  by_contra hnot
  have hlt : |(m0 : ℚ) - r / (2 : ℚ) ^ q| < 1 / 2 := lt_of_le_of_ne hhalf hnot
  have h2q : (0 : ℚ) < (2 : ℚ) ^ q := zpow_pos (by norm_num) q
  have h2e : (0 : ℚ) < (2 : ℚ) ^ e := zpow_pos (by norm_num) e
  have hw0 : (0 : ℚ) ≤ (m : ℚ) * (2 : ℚ) ^ e := by positivity
  -- the magnitude of the other value is strictly farther, unless it is the value picked
  have hmag : (m : ℚ) * (2 : ℚ) ^ e ≠ (m0 : ℚ) * (2 : ℚ) ^ q →
      |(m0 : ℚ) * (2 : ℚ) ^ q - r| < |(m : ℚ) * (2 : ℚ) ^ e - r| := by
    intro hne'
    rw [abs_scaled m0 r q]
    by_cases hqe : q ≤ e
    · obtain ⟨k, hk⟩ : ∃ k : Nat, e = q + (k : Int) := ⟨(e - q).toNat, by omega⟩
      have hpow : (2 : ℚ) ^ e = (2 : ℚ) ^ k * (2 : ℚ) ^ q := by
        rw [hk, zpow_add₀ (by norm_num : (2 : ℚ) ≠ 0), zpow_natCast]
        ring
      have hmul : (m : ℚ) * (2 : ℚ) ^ e = ((m * 2 ^ k : Nat) : ℚ) * (2 : ℚ) ^ q := by
        rw [hpow]
        push_cast
        ring
      have hkne : m * 2 ^ k ≠ m0 := by
        intro h
        apply hne'
        rw [hmul, h]
      rw [hmul, abs_scaled (m * 2 ^ k) r q]
      exact mul_lt_mul_of_pos_right (nearest_of_lt_half m0 (m * 2 ^ k) _ hlt hkne) h2q
    · have hqb : q = b - 52 := by omega
      have hb : (2 : ℚ) ^ b = ((2 ^ 52 : Nat) : ℚ) * (2 : ℚ) ^ q := by
        have h52 : (2 : ℚ) ^ (52 : Int) = ((2 ^ 52 : Nat) : ℚ) := by norm_num
        rw [hqb, ← h52, ← zpow_add₀ (by norm_num : (2 : ℚ) ≠ 0)]
        congr 1
        ring
      have hwlt : (m : ℚ) * (2 : ℚ) ^ e < (2 : ℚ) ^ b := by
        have h1 : (m : ℚ) < (2 : ℚ) ^ (53 : Int) := by
          have h53 : (2 : ℚ) ^ (53 : Int) = ((2 ^ 53 : Nat) : ℚ) := by norm_num
          rw [h53]
          exact_mod_cast hm
        have h2 : (m : ℚ) * (2 : ℚ) ^ e < (2 : ℚ) ^ (53 : Int) * (2 : ℚ) ^ e :=
          mul_lt_mul_of_pos_right h1 h2e
        rw [← zpow_add₀ (by norm_num : (2 : ℚ) ≠ 0)] at h2
        exact lt_of_lt_of_le h2 (zpow_le_zpow_right₀ (by norm_num) (by omega))
      have hnear := nearest_of_half m0 (2 ^ 52) (r / (2 : ℚ) ^ q) hhalf
      have habs52 : |((2 ^ 52 : Nat) : ℚ) - r / (2 : ℚ) ^ q| * (2 : ℚ) ^ q =
          r - (2 : ℚ) ^ b := by
        rw [← abs_scaled (2 ^ 52) r q, ← hb, abs_of_nonpos (by linarith)]
        ring
      have hstep : |(m0 : ℚ) - r / (2 : ℚ) ^ q| * (2 : ℚ) ^ q ≤ r - (2 : ℚ) ^ b := by
        rw [← habs52]
        exact mul_le_mul_of_nonneg_right hnear (le_of_lt h2q)
      rw [abs_of_nonpos (by linarith : (m : ℚ) * (2 : ℚ) ^ e - r ≤ 0)]
      linarith
  cases neg with
  | false =>
    simp only [Bool.false_eq_true, if_false, one_mul] at hne heq
    have := hmag hne
    rw [heq] at this
    exact lt_irrefl _ this
  | true =>
    simp only [if_true, neg_mul, one_mul] at hne heq
    by_cases hw : (m : ℚ) * (2 : ℚ) ^ e = 0
    · rw [hw] at hne heq
      have hne' : (m : ℚ) * (2 : ℚ) ^ e ≠ (m0 : ℚ) * (2 : ℚ) ^ q := by
        rw [hw]
        simpa using hne
      have := hmag hne'
      rw [hw] at this
      simp only [neg_zero] at heq
      rw [heq] at this
      exact lt_irrefl _ this
    · have hwpos : (0 : ℚ) < (m : ℚ) * (2 : ℚ) ^ e := lt_of_le_of_ne hw0 (Ne.symm hw)
      have hnear := nearest_of_cases r b q m0 hr hq hlo hhalf false m e hm he
      simp only [Bool.false_eq_true, if_false, one_mul] at hnear
      have hfar : |(m : ℚ) * (2 : ℚ) ^ e - r| < |-((m : ℚ) * (2 : ℚ) ^ e) - r| := by
        rw [show -((m : ℚ) * (2 : ℚ) ^ e) - r = -((m : ℚ) * (2 : ℚ) ^ e + r) by ring, abs_neg,
          abs_of_pos (by linarith : (0 : ℚ) < (m : ℚ) * (2 : ℚ) ^ e + r)]
        rw [abs_lt]
        constructor <;> linarith
      rw [heq] at hfar
      exact lt_irrefl _ (lt_of_le_of_lt hnear hfar)

/-- In the binade of the quotient the significand picked has 53 bits. -/
theorem significand_ge (r : ℚ) (b q : Int) (m0 : Nat) (hq : q = b - 52)
    (hlo : (2 : ℚ) ^ b ≤ r) (hhalf : |(m0 : ℚ) - r / (2 : ℚ) ^ q| ≤ 1 / 2) : 2 ^ 52 ≤ m0 := by
  have h2q : (0 : ℚ) < (2 : ℚ) ^ q := zpow_pos (by norm_num) q
  have ht : (2 : ℚ) ^ (52 : Int) ≤ r / (2 : ℚ) ^ q := by
    rw [le_div_iff₀ h2q, ← zpow_add₀ (by norm_num : (2 : ℚ) ≠ 0)]
    refine le_trans (le_of_eq ?_) hlo
    congr 1
    omega
  have h52 : (2 : ℚ) ^ (52 : Int) = ((2 ^ 52 : Nat) : ℚ) := by norm_num
  rw [h52] at ht
  have hm : ((2 ^ 52 : Nat) : ℚ) < ((m0 + 1 : Nat) : ℚ) := by
    have := (abs_le.mp hhalf).1
    push_cast
    push_cast at ht
    linarith
  have : 2 ^ 52 < m0 + 1 := by exact_mod_cast hm
  omega

end Double

namespace Double

theorem overflowThreshold_pos : 0 < overflowThreshold :=
  lt_of_lt_of_le (zpow_pos (by norm_num) _) overflowThreshold_bounds.1

/-- The shape of a finite binary64 value. -/
theorem isBinary64Value_iff (u : ℚ) :
    isBinary64Value u ↔ ∃ (neg : Bool) (m : Nat) (e : Int), m < 2 ^ 53 ∧ -1074 ≤ e ∧ e ≤ 971 ∧
      u = (if neg then -1 else 1) * (m : ℚ) * (2 : ℚ) ^ e := by
  constructor
  · rintro ⟨y, hy, hv⟩
    cases y with
    | inf s => simp [value] at hv
    | nan => simp [value] at hv
    | finite neg m e =>
      simp only [isBinary64, Bool.and_eq_true, decide_eq_true_eq] at hy
      simp only [value, Option.some.injEq] at hv
      exact ⟨neg, m, e, hy.1.1, hy.1.2, hy.2, hv.symm⟩
  · rintro ⟨neg, m, e, hm, he1, he2, rfl⟩
    refine ⟨finite neg m e, ?_, rfl⟩
    simp only [isBinary64, Bool.and_eq_true, decide_eq_true_eq]
    exact ⟨⟨hm, he1⟩, he2⟩

/-- `ofQuotient` rounds a non-negative quotient to binary64 as IEEE 754
prescribes. -/
theorem ofQuotient_roundsTo (n d : Nat) (hd : 0 < d) :
    roundsTo ((n : ℚ) / d) (ofQuotient false n d) := by
  have hdq : (0 : ℚ) < (d : ℚ) := by exact_mod_cast hd
  by_cases hn : n = 0
  · subst hn
    have hr : ((0 : Nat) : ℚ) / (d : ℚ) = 0 := by simp
    rw [hr]
    refine ⟨fun h => absurd h (not_le.mpr overflowThreshold_pos), fun _ => ?_⟩
    refine ⟨0, by simp [ofQuotient, value], ?_, ?_, ?_⟩
    · exact (isBinary64Value_iff 0).mpr ⟨false, 0, 0, by norm_num, by norm_num, by norm_num,
        by simp⟩
    · intro u _
      simp
    · intro u _ hne heq
      simp only [sub_zero, abs_zero, abs_eq_zero] at heq
      exact absurd heq hne
  · have hnpos : 0 < n := Nat.pos_of_ne_zero hn
    obtain ⟨b, q, m0, hq, hlo', hhi', hhalf, heven, hres⟩ := ofQuotient_cases false n d hnpos hd
    have hr : (0 : ℚ) < (n : ℚ) / d := by positivity
    have hlo : (2 : ℚ) ^ b ≤ (n : ℚ) / d := by
      rw [le_div_iff₀ hdq]
      linarith
    have hhi : (n : ℚ) / d < (2 : ℚ) ^ (b + 1) := by
      rw [div_lt_iff₀ hdq]
      linarith
    have h2q : (0 : ℚ) < (2 : ℚ) ^ q := zpow_pos (by norm_num) q
    constructor
    · intro hle
      rw [hres, overflow_of_le _ b q m0 hq hhi hle hhalf heven]
      simp
    · intro hlt
      have hno := no_overflow_of_lt _ b q m0 hq hlo hlt hhalf
      rw [hno] at hres
      simp only [Bool.false_eq_true, if_false] at hres
      have hq971 : q ≤ 971 ∧ (q = 971 → m0 < 2 ^ 53) := by
        simp only [Bool.or_eq_false_iff, decide_eq_false_iff_not, Bool.and_eq_false_iff,
          beq_eq_false_iff_ne] at hno
        constructor
        · omega
        · intro h
          rcases hno.2 with h2 | h2
          · exact absurd h h2
          · omega
      have hm53 := significand_le _ b q m0 hq hhi hhalf
      have hqlo : -1074 ≤ q := by omega
      refine ⟨(m0 : ℚ) * (2 : ℚ) ^ q, by rw [hres]; simp [value], ?_, ?_, ?_⟩
      · -- the value picked is a binary64 value
        by_cases h53 : m0 < 2 ^ 53
        · exact (isBinary64Value_iff _).mpr ⟨false, m0, q, h53, hqlo, hq971.1, by simp⟩
        · have hm0 : m0 = 2 ^ 53 := by omega
          have hq' : q + 1 ≤ 971 := by
            have := hq971.2
            omega
          refine (isBinary64Value_iff _).mpr ⟨false, 2 ^ 52, q + 1, by norm_num, by omega, hq', ?_⟩
          rw [hm0, zpow_add₀ (by norm_num : (2 : ℚ) ≠ 0)]
          norm_num
          ring
      · intro u hu
        obtain ⟨neg, m, e, hm, he1, _, rfl⟩ := (isBinary64Value_iff u).mp hu
        exact nearest_of_cases _ b q m0 hr hq hlo hhalf neg m e hm he1
      · intro u hu hne heq
        obtain ⟨neg, m, e, hm, he1, _, rfl⟩ := (isBinary64Value_iff u).mp hu
        have htie := tie_of_equidistant _ b q m0 hr hq hlo hhalf neg m e hm he1 hne heq
        have hpar := heven htie
        by_cases h53 : m0 < 2 ^ 53
        · by_cases h52 : 2 ^ 52 ≤ m0
          · exact ⟨m0, q, hpar, Or.inl ⟨h52, h53, hqlo, hq971.1⟩, rfl⟩
          · have hq' : q = -1074 := by
              by_contra hcon
              have hqb : q = b - 52 := by omega
              exact h52 (significand_ge _ b q m0 hqb hlo hhalf)
            exact ⟨m0, q, hpar, Or.inr ⟨by omega, hq'⟩, rfl⟩
        · have hm0 : m0 = 2 ^ 53 := by omega
          have hq' : q + 1 ≤ 971 := by
            have := hq971.2
            omega
          refine ⟨2 ^ 52, q + 1, by norm_num, Or.inl ⟨le_refl _, by norm_num, by omega, hq'⟩, ?_⟩
          rw [hm0, zpow_add₀ (by norm_num : (2 : ℚ) ≠ 0)]
          norm_num
          ring

end Double

/-! ## Lemmas: the `%lf` conversion on decimal numerals -/

theorem lower_of_isdigit (c : Char) (h : isdigit c = true) : lower c = c := by
  simp only [isdigit, Bool.and_eq_true, decide_eq_true_eq] at h
  have : ¬ (65 ≤ c.toNat ∧ c.toNat ≤ 90) := by omega
  simp [lower, this]

theorem isdigit_ne (c a : Char) (h : isdigit c = true) (ha : isdigit a = false) : c ≠ a := by
  rintro rfl
  rw [h] at ha
  cases ha

theorem stripWord_head_ne (w : Char) (ws : List Char) (c : Char) (cs : List Char)
    (h : lower c ≠ w) : stripWord (w :: ws) (c :: cs) = none := by
  simp [stripWord, h]

theorem scanExponent_none (mk : Char) (s : List Char)
    (h : ∀ c t, s = c :: t → lower c ≠ mk) : scanExponent mk s = (0, s) := by
  cases s with
  | nil => rfl
  | cons c t => simp [scanExponent, h c t rfl]

/-- A numeral starting with a digit is neither a word nor, under the side
condition on `0x`, a hexadecimal numeral. -/
theorem scanFloatBody_of_digit (neg : Bool) (c : Char) (t : List Char) (hc : isdigit c = true)
    (hx : stripWord ['0', 'x'] (c :: t) = none) :
    scanFloatBody neg (c :: t) = scanDecimal neg (c :: t) := by
  have hl := lower_of_isdigit c hc
  have h1 : lower c ≠ 'i' := by rw [hl]; exact isdigit_ne c 'i' hc (by decide)
  have h2 : lower c ≠ 'n' := by rw [hl]; exact isdigit_ne c 'n' hc (by decide)
  simp only [scanFloatBody, stripWord_head_ne _ _ c t h1, stripWord_head_ne _ _ c t h2, hx]

theorem stripWord_0x_none (ip : List Char) (fp : Option (List Char)) (rest : List Char)
    (hne : ip ≠ []) (hip : ∀ c ∈ ip, isdigit c = true) (hrest : numeralEnds ip fp rest) :
    stripWord ['0', 'x'] (decimalText ip fp ++ rest) = none := by
  cases ip with
  | nil => exact absurd rfl hne
  | cons c0 ip1 =>
    have hc0 : isdigit c0 = true := hip c0 (List.mem_cons_self _ _)
    have hl0 := lower_of_isdigit c0 hc0
    by_cases h0 : c0 = '0'
    swap
    · have : lower c0 ≠ '0' := by rw [hl0]; exact h0
      cases fp <;> simp [decimalText, stripWord, this]
    subst h0
    cases ip1 with
    | cons c1 ip2 =>
      have hc1 : isdigit c1 = true := hip c1 (by simp)
      have hl1 : lower c1 ≠ 'x' := by
        rw [lower_of_isdigit c1 hc1]
        exact isdigit_ne c1 'x' hc1 (by decide)
      cases fp <;> simp [decimalText, stripWord, hl1, hl0]
    | nil =>
      cases fp with
      | some f =>
        have : lower '.' ≠ 'x' := by decide
        simp [decimalText, stripWord, hl0, this]
      | none =>
        cases rest with
        | nil => simp [decimalText, stripWord, hl0]
        | cons c t =>
          have hx : lower c ≠ 'x' := (hrest.2.2 rfl).2 rfl
          simp [decimalText, stripWord, hl0, hx]

theorem numeralEnds_stopsAt (ip : List Char) (fp : Option (List Char)) (rest : List Char)
    (h : numeralEnds ip fp rest) : stopsAt isdigit rest := by
  cases rest with
  | nil => trivial
  | cons c t => exact h.1

theorem numeralEnds_exponent (ip : List Char) (fp : Option (List Char)) (rest : List Char)
    (h : numeralEnds ip fp rest) : scanExponent 'e' rest = (0, rest) := by
  apply scanExponent_none
  intro c t hct
  subst hct
  exact h.2.1

/-- `scanDecimal` on a decimal numeral reads all of it. -/
theorem scanDecimal_decimalText (neg : Bool) (ip : List Char) (fp : Option (List Char))
    (rest : List Char) (hne : ip ≠ []) (hip : ∀ c ∈ ip, isdigit c = true)
    (hfp : ∀ c ∈ fp.getD [], isdigit c = true) (hrest : numeralEnds ip fp rest) :
    scanDecimal neg (decimalText ip fp ++ rest) =
      some (Double.ofScaled neg (decValue (ip ++ fp.getD [])) 10
        (0 - ((fp.getD []).length : Int)), rest) := by
  have hstop := numeralEnds_stopsAt ip fp rest hrest
  have hexp := numeralEnds_exponent ip fp rest hrest
  cases fp with
  | none =>
    have hspan : spanClass isdigit (ip ++ rest) = (ip, rest) :=
      spanClass_append isdigit ip rest hip hstop
    have hfrac : scanFraction isdigit rest = ([], rest) := by
      cases rest with
      | nil => rfl
      | cons c t =>
        have : c ≠ '.' := (hrest.2.2 rfl).1
        simp [scanFraction, this]
    simp [scanDecimal, decimalText, hspan, hfrac, hne, hexp]
  | some f =>
    have hdot : stopsAt isdigit ('.' :: (f ++ rest)) := by
      show isdigit '.' = false
      decide
    have hspan : spanClass isdigit (ip ++ '.' :: (f ++ rest)) = (ip, '.' :: (f ++ rest)) :=
      spanClass_append isdigit ip _ hip hdot
    have hfrac : scanFraction isdigit ('.' :: (f ++ rest)) = (f, rest) := by
      simp only [scanFraction, if_true]
      exact spanClass_append isdigit f rest hfp hstop
    simp [scanDecimal, decimalText, hspan, hfrac, hne, hexp]

theorem decimalText_cons (ip : List Char) (fp : Option (List Char)) (rest : List Char)
    (hne : ip ≠ []) (hip : ∀ c ∈ ip, isdigit c = true) :
    ∃ c t, decimalText ip fp ++ rest = c :: t ∧ isdigit c = true := by
  cases ip with
  | nil => exact absurd rfl hne
  | cons c ip1 =>
    have hc : isdigit c = true := hip c (List.mem_cons_self _ _)
    cases fp with
    | none => exact ⟨c, ip1 ++ rest, rfl, hc⟩
    | some f => exact ⟨c, ip1 ++ '.' :: f ++ rest, by simp [decimalText], hc⟩

/-- `%lf` on a decimal numeral followed by something that cannot continue it
reads the numeral and yields the double nearest to its value. -/
theorem scanDouble_decimalText (ip : List Char) (fp : Option (List Char)) (rest : List Char)
    (hne : ip ≠ []) (hip : ∀ c ∈ ip, isdigit c = true)
    (hfp : ∀ c ∈ fp.getD [], isdigit c = true) (hrest : numeralEnds ip fp rest) :
    scanDouble (decimalText ip fp ++ rest) = Conv.ok (decimalDouble ip fp) rest := by
  obtain ⟨c, t, hct, hc⟩ := decimalText_cons ip fp rest hne hip
  have hx := stripWord_0x_none ip fp rest hne hip hrest
  have hdec := scanDecimal_decimalText false ip fp rest hne hip hfp hrest
  rw [hct] at hx hdec ⊢
  simp only [scanDouble, skipSpaces_of_digit c t hc, takeSign_of_digit c t hc,
    scanFloatBody_of_digit false c t hc hx, hdec, decimalDouble]

/-- The same after a minus sign. -/
theorem scanDouble_minus_decimalText (ip : List Char) (fp : Option (List Char))
    (rest : List Char) (hne : ip ≠ []) (hip : ∀ c ∈ ip, isdigit c = true)
    (hfp : ∀ c ∈ fp.getD [], isdigit c = true) (hrest : numeralEnds ip fp rest) :
    scanDouble ('-' :: (decimalText ip fp ++ rest)) =
      Conv.ok (Double.ofScaled true (decValue (ip ++ fp.getD [])) 10
        (0 - ((fp.getD []).length : Int))) rest := by
  obtain ⟨c, t, hct, hc⟩ := decimalText_cons ip fp rest hne hip
  have hx := stripWord_0x_none ip fp rest hne hip hrest
  have hdec := scanDecimal_decimalText true ip fp rest hne hip hfp hrest
  rw [hct] at hx hdec ⊢
  have hsp : skipSpaces ('-' :: c :: t) = '-' :: c :: t := by
    have : isspace '-' = false := by decide
    simp [skipSpaces, this]
  have hsg : takeSign ('-' :: c :: t) = (true, c :: t) := by simp [takeSign]
  simp only [scanDouble, hsp, hsg, scanFloatBody_of_digit true c t hc hx, hdec]

theorem scanDirectives_lf (s : List Char) (v : Double) (rest : List Char)
    (h : scanDouble s = Conv.ok v rest) :
    scanDirectives [Directive.lf] s = ([Item.dbl v], false) := by
  simp [scanDirectives, h, scanDirectives_nil]

/-- The four-field format on `WxHxD@` followed by a text that `%lf` reads. -/
theorem sscanf_WHDR (w h d : Nat) (hw : w < 2 ^ 64) (hh : h < 2 ^ 64) (hd : d < 2 ^ 64)
    (s : List Char) (v : Double) (rest : List Char) (hs : scanDouble s = Conv.ok v rest) :
    sscanf (fmtUnsigned w ++ 'x' :: (fmtUnsigned h ++ 'x' :: (fmtUnsigned d ++ '@' :: s))) fmtWHDR =
      (4, [Item.ulong w, Item.ulong h, Item.ulong d, Item.dbl v]) := by
  have e := sscanf_WHD [Directive.lit '@', Directive.lf] w h d hw hh hd ('@' :: s) (stopsAt_at s)
  rw [scanDirectives_lit, scanDirectives_lf s v rest hs] at e
  rw [fmtWHDR, sscanf_of_scanDirectives _ _ _ _ e]
  simp

theorem parseStringConfig_WHDR (w h d : Nat) (hw : w < 2 ^ 64) (hh : h < 2 ^ 64)
    (hd : d < 2 ^ 64) (s : List Char) (v : Double) (rest : List Char)
    (hs : scanDouble s = Conv.ok v rest) (out : config) :
    parseStringConfig (fmtUnsigned w ++ 'x' :: (fmtUnsigned h ++ 'x' :: (fmtUnsigned d ++ '@' :: s)))
      out = (1, config.mk w h d v, []) := by
  simp [parseStringConfig, sscanf_WHDR w h d hw hh hd s v rest hs, ulongAt, doubleAt]

/-! ## The mode string parser: four fields, and trailing characters -/

theorem fourFieldText_append (w h d : Nat) (ip : List Char) (fp : Option (List Char))
    (s : List Char) :
    fourFieldText w h d ip fp ++ s =
      fmtUnsigned w ++ 'x' :: (fmtUnsigned h ++ 'x' :: (fmtUnsigned d ++ '@' ::
        (decimalText ip fp ++ s))) := by
  simp [fourFieldText]

theorem parseStringConfig_fourFieldText_append (w h d : Nat) (hw : w < 2 ^ 64)
    (hh : h < 2 ^ 64) (hd : d < 2 ^ 64) (ip : List Char) (fp : Option (List Char))
    (hne : ip ≠ []) (hip : ∀ c ∈ ip, isdigit c = true)
    (hfp : ∀ c ∈ fp.getD [], isdigit c = true) (s : List Char) (hs : numeralEnds ip fp s)
    (out : config) :
    parseStringConfig (fourFieldText w h d ip fp ++ s) out =
      (1, config.mk w h d (decimalDouble ip fp), []) := by
  rw [fourFieldText_append]
  exact parseStringConfig_WHDR w h d hw hh hd _ _ s
    (scanDouble_decimalText ip fp s hne hip hfp hs) out

/-- A decimal numeral whose value is a binary64 value converts to that value. -/
theorem decimalDouble_exact (ip : List Char) (fp : Option (List Char)) (x : Double)
    (hx : x.isBinary64 = true) (hv : x.value = some (decimalValue ip fp)) :
    (decimalDouble ip fp).value = some (decimalValue ip fp) := by
  cases x with
  | inf s => simp [Double.value] at hv
  | nan => simp [Double.value] at hv
  | finite n m e =>
    simp only [Double.isBinary64, Bool.and_eq_true, decide_eq_true_eq] at hx
    obtain ⟨⟨hm, he1⟩, he2⟩ := hx
    simp only [Double.value, Option.some.injEq] at hv
    have h10 : (0 : ℚ) < (10 : ℚ) ^ (fp.getD []).length := by positivity
    have h2e : (0 : ℚ) < (2 : ℚ) ^ e := zpow_pos (by norm_num) e
    have hmq : (0 : ℚ) ≤ (m : ℚ) * (2 : ℚ) ^ e := by positivity
    have hnonneg : (0 : ℚ) ≤ decimalValue ip fp := by
      unfold decimalValue
      positivity
    -- the magnitude of `x` is the value of the numeral
    have hmag : (m : ℚ) * (2 : ℚ) ^ e = decimalValue ip fp := by
      cases n with
      | false => simpa [mul_assoc] using hv
      | true =>
        have h1 : -((m : ℚ) * (2 : ℚ) ^ e) = decimalValue ip fp := by
          simpa [mul_assoc] using hv
        have h0 : (m : ℚ) * (2 : ℚ) ^ e = 0 := by linarith
        rw [h0] at h1 ⊢
        rw [← h1]
        simp
    have hval : ((decValue (ip ++ fp.getD []) : Nat) : ℚ) =
        (10 : ℚ) ^ (fp.getD []).length * ((m : ℚ) * (2 : ℚ) ^ e) := by
      rw [hmag]
      unfold decimalValue
      field_simp
    have := Double.ofScaled_decimal_value false (decValue (ip ++ fp.getD []))
      (fp.getD []).length m e hm he1 he2 hval
    rw [decimalDouble, this, ← hmag]
    simp [mul_assoc]

/-- The rate a decimal numeral converts to is its value rounded to binary64
as IEEE 754 prescribes. -/
theorem decimalDouble_roundsTo (ip : List Char) (fp : Option (List Char)) :
    roundsTo (decimalValue ip fp) (decimalDouble ip fp) := by
  unfold decimalDouble decimalValue Double.ofScaled
  by_cases hk : (fp.getD []).length = 0
  · have h := Double.ofQuotient_roundsTo (decValue (ip ++ fp.getD []) * 10 ^ 0) 1 (by decide)
    simp only [hk, Nat.cast_zero, sub_zero, le_refl, if_true, Int.toNat_zero]
    simpa using h
  · have hneg : ¬ (0 ≤ (0 : Int) - ((fp.getD []).length : Int)) := by omega
    have htn : (-((0 : Int) - ((fp.getD []).length : Int))).toNat = (fp.getD []).length := by
      omega
    rw [if_neg hneg, htn]
    have h := Double.ofQuotient_roundsTo (decValue (ip ++ fp.getD []))
      (10 ^ (fp.getD []).length) (by positivity)
    simpa using h

/-- Claim C5 fails as stated.  The string `1920x1080x32@59.94` parses to the
rate `8435805052018360 * 2^-47`, which is not 59.94: no binary64 has the
value 59.94. -/
theorem four_fields_rate_is_rounded :
    parseStringConfig ("1920x1080x32@59.94").toList (config.mk 0 0 0 Double.nan) =
      (1, config.mk 1920 1080 32 (Double.finite false 8435805052018360 (-47)), []) ∧
    decimalValue ("59").toList (some ("94").toList) = 5994 / 100 ∧
    (Double.finite false 8435805052018360 (-47)).value ≠
      some (decimalValue ("59").toList (some ("94").toList)) ∧
    ¬ isBinary64Value (decimalValue ("59").toList (some ("94").toList)) := by
  have hv : decimalValue ("59").toList (some ("94").toList) = 5994 / 100 := by
    have hc : decValue (("59").toList ++ (some ("94").toList).getD []) = 5994 := by decide
    have hl : ((some ("94").toList).getD []).length = 2 := by decide
    rw [decimalValue, hc, hl]
    norm_num
  have hne : (Double.finite false 8435805052018360 (-47)).value ≠
      some (decimalValue ("59").toList (some ("94").toList)) := by
    rw [hv]
    simp only [Double.value, Bool.false_eq_true, if_false, ne_eq, Option.some.injEq]
    norm_num
  refine ⟨by decide, hv, hne, ?_⟩
  rintro ⟨x, hx, hxv⟩
  have hd : decimalDouble ("59").toList (some ("94").toList) =
      Double.finite false 8435805052018360 (-47) := by decide
  have := decimalDouble_exact ("59").toList (some ("94").toList) x hx hxv
  rw [hd] at this
  exact hne this

/-- Claim C5, amended.  For `w`, `h`, `d` in the range of `unsigned long` and
every decimal numeral `r` (digits, optionally a point and more digits), the
string `WxHxD@R` parses with no advisory and no error to the width `w`, the
height `h`, the depth `d` and the rate that is `r` rounded to binary64 (to
nearest, ties to even, infinity from the overflow threshold on); the rate is
`r` itself whenever `r` is a binary64 value, as 60.0 is. -/
theorem parseStringConfig_four_fields (w h d : Nat) (hw : w < 2 ^ 64) (hh : h < 2 ^ 64)
    (hd : d < 2 ^ 64) (ip : List Char) (fp : Option (List Char)) (hne : ip ≠ [])
    (hip : ∀ c ∈ ip, isdigit c = true) (hfp : ∀ c ∈ fp.getD [], isdigit c = true)
    (out : config) :
    ∃ rate, parseStringConfig (fourFieldText w h d ip fp) out = (1, config.mk w h d rate, []) ∧
      roundsTo (decimalValue ip fp) rate ∧
      (isBinary64Value (decimalValue ip fp) → rate.value = some (decimalValue ip fp)) := by
  refine ⟨decimalDouble ip fp, ?_, decimalDouble_roundsTo ip fp, ?_⟩
  · have := parseStringConfig_fourFieldText_append w h d hw hh hd ip fp hne hip hfp [] trivial out
    rwa [List.append_nil] at this
  · rintro ⟨x, hx, hv⟩
    exact decimalDouble_exact ip fp x hx hv

/-- Witness for claim C5, amended: `1920x1080x32@60.0` parses to
`{1920, 1080, 32, 60.0}`. -/
theorem parseStringConfig_four_fields_witness :
    ∃ rate, parseStringConfig ("1920x1080x32@60.0").toList (config.mk 0 0 0 Double.nan) =
        (1, config.mk 1920 1080 32 rate, []) ∧
      rate.value = some 60 ∧ Double.ceq rate Double.sixty = true := by
  obtain ⟨rate, hparse, _, hexact⟩ :=
    parseStringConfig_four_fields 1920 1080 32 (by decide) (by decide) (by decide)
      ("60").toList (some ("0").toList) (by decide) (by decide) (by decide)
      (config.mk 0 0 0 Double.nan)
  have hv : decimalValue ("60").toList (some ("0").toList) = 60 := by
    have hc : decValue (("60").toList ++ (some ("0").toList).getD []) = 600 := by decide
    have hl : ((some ("0").toList).getD []).length = 1 := by decide
    rw [decimalValue, hc, hl]
    norm_num
  have hval : rate.value = some 60 := by
    rw [← hv]
    exact hexact ⟨Double.sixty, by decide, by rw [hv]; norm_num [Double.value, Double.sixty]⟩
  refine ⟨rate, hparse, hval, ?_⟩
  obtain ⟨n, m, e, rfl⟩ := Double.finite_of_value rate 60 hval
  exact (Double.ceq_finite_iff n m e false 60 0).mpr
    (by rw [hval]; norm_num [Double.value])

/-- Claim C10 fails as stated.  After the rate text `0` the suffix `x1` starts
with a letter that is neither a digit, a point nor an exponent marker, yet it
continues the numeral: `0x1` is a hexadecimal numeral, and the string parses
to the rate 1 where `1920x1080x32@0` alone parses to the rate 0. -/
theorem suffix_x_after_zero_changes_rate :
    cannotContinueDecimal ("x1").toList = true ∧
    parseStringConfig (fourFieldText 1920 1080 32 ("0").toList none)
        (config.mk 0 0 0 Double.nan) =
      (1, config.mk 1920 1080 32 (Double.finite false 0 0), []) ∧
    parseStringConfig (fourFieldText 1920 1080 32 ("0").toList none ++ ("x1").toList)
        (config.mk 0 0 0 Double.nan) =
      (1, config.mk 1920 1080 32 (Double.finite false 4503599627370496 (-52)), []) ∧
    (Double.finite false 0 0).value = some 0 ∧
    (Double.finite false 4503599627370496 (-52)).value = some 1 ∧
    Double.ceq (Double.finite false 4503599627370496 (-52)) (Double.finite false 0 0) = false := by
  refine ⟨by decide, by decide, by decide, ?_, ?_, by decide⟩
  · simp [Double.value]
  · simp only [Double.value, Bool.false_eq_true, if_false, Option.some.injEq]
    norm_num

/-- Claim C10, amended.  Trailing characters after a complete four-field mode
string are ignored when the suffix `s` cannot continue the numeral of the
rate: `s` is empty, or its first character is not a digit, not an exponent
marker, not a point if the numeral has none, and not an `x` right after the
numeral `0`.  Then `WxHxD@R` followed by `s` parses exactly as `WxHxD@R` does,
with no advisory and no error, to the width `w`, the height `h`, the depth `d`
and the rate that is `r` rounded to binary64, which is `r` itself whenever `r`
is a binary64 value. -/
theorem parseStringConfig_ignores_suffix (w h d : Nat) (hw : w < 2 ^ 64) (hh : h < 2 ^ 64)
    (hd : d < 2 ^ 64) (ip : List Char) (fp : Option (List Char)) (hne : ip ≠ [])
    (hip : ∀ c ∈ ip, isdigit c = true) (hfp : ∀ c ∈ fp.getD [], isdigit c = true)
    (s : List Char) (hs : numeralEnds ip fp s) (out : config) :
    parseStringConfig (fourFieldText w h d ip fp ++ s) out =
      parseStringConfig (fourFieldText w h d ip fp) out ∧
    ∃ rate, parseStringConfig (fourFieldText w h d ip fp ++ s) out =
        (1, config.mk w h d rate, []) ∧
      roundsTo (decimalValue ip fp) rate ∧
      (isBinary64Value (decimalValue ip fp) → rate.value = some (decimalValue ip fp)) := by
  have h1 := parseStringConfig_fourFieldText_append w h d hw hh hd ip fp hne hip hfp s hs out
  have h2 := parseStringConfig_fourFieldText_append w h d hw hh hd ip fp hne hip hfp [] trivial out
  rw [List.append_nil] at h2
  refine ⟨h1.trans h2.symm, decimalDouble ip fp, h1, decimalDouble_roundsTo ip fp, ?_⟩
  rintro ⟨x, hx, hv⟩
  exact decimalDouble_exact ip fp x hx hv

/-- Witness for claim C10, amended: `1920x1080x32@60` followed by
`Hz and more` parses as `1920x1080x32@60` does, to the rate 60. -/
theorem parseStringConfig_ignores_suffix_witness :
    parseStringConfig ("1920x1080x32@60Hz and more").toList (config.mk 0 0 0 Double.nan) =
      parseStringConfig ("1920x1080x32@60").toList (config.mk 0 0 0 Double.nan) ∧
    ∃ rate, parseStringConfig ("1920x1080x32@60Hz and more").toList
        (config.mk 0 0 0 Double.nan) = (1, config.mk 1920 1080 32 rate, []) ∧
      rate.value = some 60 := by
  obtain ⟨hsame, rate, hparse, _, hexact⟩ :=
    parseStringConfig_ignores_suffix 1920 1080 32 (by decide) (by decide) (by decide)
      ("60").toList none (by decide) (by decide) (by decide) ("Hz and more").toList
      ⟨by decide, by decide, fun _ => ⟨by decide, fun _ => by decide⟩⟩
      (config.mk 0 0 0 Double.nan)
  have hv : decimalValue ("60").toList none = 60 := by
    have hc : decValue (("60").toList ++ (none : Option (List Char)).getD []) = 60 := by decide
    have hl : ((none : Option (List Char)).getD []).length = 0 := by decide
    rw [decimalValue, hc, hl]
    norm_num
  refine ⟨hsame, rate, hparse, ?_⟩
  rw [← hv]
  exact hexact ⟨Double.sixty, by decide, by rw [hv]; norm_num [Double.value, Double.sixty]⟩

/-! ## Round trip from `get` to `set` -/

namespace Double

/-- Doubles with the same exact value compare alike with any third double. -/
theorem ceq_congr_right (x y z : Double) (v : ℚ) (hy : y.value = some v)
    (hz : z.value = some v) : ceq x y = ceq x z := by
  obtain ⟨n1, m1, e1, rfl⟩ := finite_of_value y v hy
  obtain ⟨n2, m2, e2, rfl⟩ := finite_of_value z v hz
  cases x with
  | inf s => simp [ceq]
  | nan => simp [ceq]
  | finite n m e =>
    have h1 := ceq_finite_iff n m e n1 m1 e1
    have h2 := ceq_finite_iff n m e n2 m2 e2
    rw [hy] at h1
    rw [hz] at h2
    cases hc : ceq (finite n m e) (finite n1 m1 e1) with
    | true => exact (h2.mpr (h1.mp hc)).symm
    | false =>
      cases hc2 : ceq (finite n m e) (finite n2 m2 e2) with
      | false => rfl
      | true =>
        rw [h1.mpr (h2.mp hc2)] at hc
        cases hc

theorem ceq_self_of_value (y : Double) (v : ℚ) (hy : y.value = some v) : ceq y y = true := by
  obtain ⟨n, m, e, rfl⟩ := finite_of_value y v hy
  exact (ceq_finite_iff n m e n m e).mpr rfl

/-- The integer a finite double with an integer value stands for (its
magnitude). -/
theorem integral_magnitude (m : Nat) (e : Int)
    (hint : isIntegral (finite false m e) = true) :
    ∃ r : Nat, (r : ℚ) = (m : ℚ) * (2 : ℚ) ^ e ∧
      (if 0 ≤ e then m * 10 ^ 0 * 2 ^ e.toNat
        else roundHalfEven (m * 10 ^ 0) (2 ^ (-e).toNat)) = r := by
  by_cases he : 0 ≤ e
  · refine ⟨m * 2 ^ e.toNat, ?_, by simp [he]⟩
    rw [two_zpow_toNat e he]
    push_cast
    ring
  · have hmod : m % 2 ^ (-e).toNat = 0 := by
      simpa [isIntegral, he] using hint
    obtain ⟨r, hr⟩ := Nat.dvd_of_mod_eq_zero hmod
    have hpos : 0 < 2 ^ (-e).toNat := by positivity
    refine ⟨r, ?_, ?_⟩
    · have hinv := two_zpow_neg_toNat e (by omega)
      have hmq : (m : ℚ) = (2 : ℚ) ^ (-e).toNat * (r : ℚ) := by exact_mod_cast hr
      rw [hmq]
      calc (r : ℚ) = (r : ℚ) * ((2 : ℚ) ^ e * (2 : ℚ) ^ (-e).toNat) := by rw [hinv, mul_one]
        _ = (2 : ℚ) ^ (-e).toNat * (r : ℚ) * (2 : ℚ) ^ e := by ring
    · rw [if_neg he, pow_zero, mul_one, hr, Nat.mul_comm]
      exact roundHalfEven_exact r _ hpos

/-- The text of `%.0f` for a finite double with an integer value: a sign and
the digits of the magnitude. -/
theorem fmtFixed_zero_integral (neg : Bool) (m : Nat) (e : Int)
    (hint : isIntegral (finite neg m e) = true) :
    ∃ r : Nat, (r : ℚ) = (m : ℚ) * (2 : ℚ) ^ e ∧
      fmtFixed 0 (finite neg m e) = (if neg then ['-'] else []) ++ fmtUnsigned r := by
  obtain ⟨r, hr, hround⟩ := integral_magnitude m e hint
  refine ⟨r, hr, ?_⟩
  simp only [fmtFixed, hround]
  simp [fmtUnsigned]

end Double

theorem bitDepth_le (hdr : Headers) (mode : DisplayMode) : bitDepth hdr mode ≤ 96 := by
  unfold bitDepth
  split_ifs <;> omega

theorem numeralEnds_newline (ip : List Char) (nl : List Char) (h : nl = [] ∨ nl = ['\n']) :
    numeralEnds ip none nl := by
  rcases h with rfl | rfl
  · trivial
  · exact ⟨by decide, by decide, fun _ => ⟨by decide, fun _ => by decide⟩⟩

/-- `%lf` reads back the text `%.0f` wrote for a binary64 value that is an
integer, and the double it yields has the same value. -/
theorem scanDouble_fmtFixed_zero (x : Double) (hbin : x.isBinary64 = true)
    (hint : x.isIntegral = true) (nl : List Char) (hnl : nl = [] ∨ nl = ['\n']) :
    ∃ y v, scanDouble (Double.fmtFixed 0 x ++ nl) = Conv.ok y nl ∧
      x.value = some v ∧ y.value = some v := by
  cases x with
  | inf s => simp [Double.isIntegral] at hint
  | nan => simp [Double.isIntegral] at hint
  | finite neg m e =>
    simp only [Double.isBinary64, Bool.and_eq_true, decide_eq_true_eq] at hbin
    obtain ⟨⟨hm, he1⟩, he2⟩ := hbin
    obtain ⟨r, hr, htext⟩ := Double.fmtFixed_zero_integral neg m e hint
    obtain ⟨hne, hds, hval⟩ := fmtUnsigned_spec r
    have hends := numeralEnds_newline (fmtUnsigned r) nl hnl
    have hdv : decValue (fmtUnsigned r ++ (none : Option (List Char)).getD []) = r := by
      simpa using hval
    have hvalue : (Double.ofScaled neg (decValue (fmtUnsigned r ++
        (none : Option (List Char)).getD [])) 10
        (0 - (((none : Option (List Char)).getD []).length : Int))).value =
        some ((if neg then -1 else 1) * (m : ℚ) * (2 : ℚ) ^ e) := by
      rw [hdv]
      exact Double.ofScaled_decimal_value neg r 0 m e hm he1 he2 (by rw [hr]; simp)
    refine ⟨_, _, ?_, rfl, hvalue⟩
    rw [htext]
    cases neg with
    | false =>
      simpa [decimalText, decimalDouble] using
        scanDouble_decimalText (fmtUnsigned r) none nl hne hds (by simp) hends
    | true =>
      simpa [decimalText] using
        scanDouble_minus_decimalText (fmtUnsigned r) none nl hne hds (by simp) hends

theorem fmtMode_eq (w h d : Nat) (r : Double) (nl : List Char) :
    fmtMode w h d r ++ nl =
      fmtUnsigned w ++ 'x' :: (fmtUnsigned h ++ 'x' :: (fmtUnsigned d ++ '@' ::
        (Double.fmtFixed 0 r ++ nl))) := by
  simp [fmtMode]

/-- Claim C4 fails as stated.  The only mode of the display runs at 59.94 Hz
(the binary64 value that the numeral `59.94` denotes).  `get` prints `1920x1080x32@60`; that line parses to a
request for 60 Hz, which the mode does not equal, and `configureDisplay`
returns 0: the mode is not selected again. -/
theorem round_trip_fails_at_5994 :
    rate5994.isBinary64 = true ∧
    decimalDouble ("59").toList (some ("94").toList) = rate5994 ∧
    listCurrentMode (ioGraphicsTypes []) (exampleOS [exampleMode rate5994] 0 0 0) 7 0 =
      some (1, [Event.stdout ("1920x1080x32@60\n").toList]) ∧
    parseStringConfig ("1920x1080x32@60").toList (config.mk 0 0 0 Double.nan) =
      (1, config.mk 1920 1080 32 (Double.finite false 8444249301319680 (-47)), []) ∧
    Double.ceq rate5994 (Double.finite false 8444249301319680 (-47)) = false ∧
    configureDisplay (ioGraphicsTypes []) (exampleOS [exampleMode rate5994] 0 0 0) 7
        (config.mk 1920 1080 32 (Double.finite false 8444249301319680 (-47))) 0 =
      some (0, [Event.stderr
        ("Error: mode 1920x1080x32@60.000000 not available on display 0.\n").toList]) := by
  decide

/-- Claim C4, amended.  For every mode `m` of the mode list whose refresh rate
is a binary64 value that is an integer (as 60.0 is), the line `get` prints for
`m`, with or without its newline, parses without advisory, and
`configureDisplay` with the parsed request returns 1 and selects the first
entry of the list whose width, height, depth and refresh rate equal those of
`m`. -/
theorem get_set_round_trip (hdr : Headers) (os : OS) (display displayNum : Nat)
    (allModes : List DisplayMode) (m : DisplayMode)
    (hmodes : os.allModes display = some allModes) (hm : m ∈ allModes)
    (hw : m.width < 2 ^ 64) (hh : m.height < 2 ^ 64)
    (hbin : m.refreshRate.isBinary64 = true) (hint : m.refreshRate.isIntegral = true)
    (nl : List Char) (hnl : nl = [] ∨ nl = ['\n']) (out : config) :
    ∃ cfg, parseStringConfig
        (fmtMode m.width m.height (bitDepth hdr m) m.refreshRate ++ nl) out = (1, cfg, []) ∧
      ∃ i sel, allModes.get? i = some sel ∧
        (sel.width = m.width ∧ sel.height = m.height ∧ bitDepth hdr sel = bitDepth hdr m ∧
          Double.ceq sel.refreshRate m.refreshRate = true) ∧
        (∀ j x, j < i → allModes.get? j = some x →
          ¬ (x.width = m.width ∧ x.height = m.height ∧ bitDepth hdr x = bitDepth hdr m ∧
            Double.ceq x.refreshRate m.refreshRate = true)) ∧
        configureDisplay hdr os display cfg displayNum =
          some (1,
            Event.stdout (("Set mode on display ").toList ++ fmtUnsigned displayNum ++
              (" to ").toList ++
              fmtMode sel.width sel.height (bitDepth hdr sel) sel.refreshRate ++ ['\n'])
              :: (setDisplayToMode os display i).2) := by
  obtain ⟨y, v, hscan, hxv, hyv⟩ := scanDouble_fmtFixed_zero m.refreshRate hbin hint nl hnl
  have hd : bitDepth hdr m < 2 ^ 64 := lt_of_le_of_lt (bitDepth_le hdr m) (by decide)
  refine ⟨config.mk m.width m.height (bitDepth hdr m) y, ?_, ?_⟩
  · rw [fmtMode_eq]
    exact parseStringConfig_WHDR m.width m.height (bitDepth hdr m) hw hh hd _ y nl hscan out
  -- an entry passes the comparison with the request iff its fields equal those of `m`
  have key : ∀ x : DisplayMode,
      modeMatches hdr (config.mk m.width m.height (bitDepth hdr m) y) x = true ↔
        (x.width = m.width ∧ x.height = m.height ∧ bitDepth hdr x = bitDepth hdr m ∧
          Double.ceq x.refreshRate m.refreshRate = true) := by
    intro x
    rw [modeMatches_iff, Double.ceq_congr_right x.refreshRate y m.refreshRate v hyv hxv]
  have hself : modeMatches hdr (config.mk m.width m.height (bitDepth hdr m) y) m = true :=
    (key m).mpr ⟨rfl, rfl, rfl, Double.ceq_self_of_value m.refreshRate v hxv⟩
  obtain ⟨pre, sel, post, hsplit, hpre, hsel⟩ :=
    exists_first_split (modeMatches hdr (config.mk m.width m.height (bitDepth hdr m) y))
      allModes ⟨m, hm, hself⟩
  subst hsplit
  refine ⟨pre.length, sel, ?_, (key sel).mp hsel, ?_, ?_⟩
  · rw [List.get?_eq_getElem?, List.getElem?_append_right (le_refl _)]
    simp
  · intro j x hj hx hmatch
    have hxpre : x ∈ pre := by
      have h1 : (pre ++ sel :: post).get? j = pre.get? j := by
        simp only [List.get?_eq_getElem?]
        exact List.getElem?_append_left hj
      rw [h1] at hx
      exact List.get?_mem hx
    have := hpre x hxpre
    rw [(key x).mpr hmatch] at this
    cases this
  · exact configureDisplay_found hdr os display displayNum _ pre post sel hmodes hpre hsel

/-- Witness for claim C4, amended: the mode list holds a 59.94 Hz mode and two
60 Hz modes; the round trip from the last one selects the first 60 Hz mode. -/
theorem get_set_round_trip_witness :
    ∃ cfg, parseStringConfig ("1920x1080x32@60\n").toList (config.mk 0 0 0 Double.nan) =
        (1, cfg, []) ∧
      ∃ i sel, [exampleMode rate5994, exampleMode Double.sixty,
          exampleMode (Double.finite false 15 2)].get? i = some sel ∧
        (sel.width = 1920 ∧ sel.height = 1080 ∧ bitDepth (ioGraphicsTypes []) sel = 32 ∧
          Double.ceq sel.refreshRate (Double.finite false 15 2) = true) ∧
        (∀ j x, j < i → [exampleMode rate5994, exampleMode Double.sixty,
            exampleMode (Double.finite false 15 2)].get? j = some x →
          ¬ (x.width = 1920 ∧ x.height = 1080 ∧ bitDepth (ioGraphicsTypes []) x = 32 ∧
            Double.ceq x.refreshRate (Double.finite false 15 2) = true)) ∧
        configureDisplay (ioGraphicsTypes [])
            (exampleOS [exampleMode rate5994, exampleMode Double.sixty,
              exampleMode (Double.finite false 15 2)] 0 0 0) 7 cfg 0 =
          some (1,
            Event.stdout (("Set mode on display ").toList ++ fmtUnsigned 0 ++
              (" to ").toList ++
              fmtMode sel.width sel.height (bitDepth (ioGraphicsTypes []) sel) sel.refreshRate ++
                ['\n'])
              :: (setDisplayToMode
                  (exampleOS [exampleMode rate5994, exampleMode Double.sixty,
                    exampleMode (Double.finite false 15 2)] 0 0 0) 7 i).2) :=
  get_set_round_trip (ioGraphicsTypes [])
    (exampleOS [exampleMode rate5994, exampleMode Double.sixty,
      exampleMode (Double.finite false 15 2)] 0 0 0) 7 0
    [exampleMode rate5994, exampleMode Double.sixty, exampleMode (Double.finite false 15 2)]
    (exampleMode (Double.finite false 15 2)) rfl (by simp) (by decide) (by decide) (by decide)
    (by decide) ['\n'] (Or.inr rfl) (config.mk 0 0 0 Double.nan)

end ScreenResolution
